import Mathlib

/-!
Verification development for the haunt symlink manager.

The filesystem is modelled as a finite association list from absolute paths
(component lists) to nodes (regular file, directory, or symlink carrying its
raw target).  Symlink targets may be absolute or relative; a relative target
records how many `..` components it starts with (`ups`) followed by plain name
components, which is exactly the shape `Path.relative_to(..., walk_up=True)`
produces and `os.readlink` returns for links written by haunt.

Path resolution (`Path.resolve()`) is modelled by a fuel-bounded walker that
processes one component at a time, expanding symlinks as they are encountered
and applying `..` physically, i.e. after expansion — matching POSIX/pathlib
semantics.  Nonexistent components are kept verbatim (resolve with
strict=False).
-/

namespace Haunt

/-- Raw target stored inside a symlink: `absolute` targets ignore the link's
location; relative targets climb `ups` directories before descending through
`comps`. -/
structure TargetPath where
  absolute : Bool
  ups : Nat
  comps : List String
  deriving DecidableEq, Repr

/-- A filesystem object: regular file, directory, or symbolic link. -/
inductive Node where
  | file : Node
  | dir : Node
  | symlink : TargetPath → Node
  deriving DecidableEq, Repr

/-- A filesystem: finite map from absolute paths (component lists) to nodes,
represented as an association list (first binding wins). -/
abbrev FS := List (List String × Node)

def FS.lookup (fs : FS) (p : List String) : Option Node :=
  match fs with
  | [] => none
  | (k, n) :: rest => if k = p then some n else FS.lookup rest p

def FS.eraseKey (fs : FS) (p : List String) : FS :=
  match fs with
  | [] => []
  | (k, n) :: rest =>
    if k = p then FS.eraseKey rest p else (k, n) :: FS.eraseKey rest p

/-- Insert (or overwrite) a binding. -/
def FS.insert (fs : FS) (p : List String) (n : Node) : FS :=
  (p, n) :: fs.eraseKey p

/-- One unit of work for the resolution walker: either climb one directory or
descend into a named component. -/
inductive Item where
  | up : Item
  | name : String → Item
  deriving DecidableEq, Repr

def Item.asName : Item → Option String
  | .up => none
  | .name s => some s

/-- Fuel-bounded core of `Path.resolve()`: `base` is the already-resolved
absolute prefix, `items` the remaining work.  A component that is a symlink is
expanded in place; `..` drops the last resolved component; unknown components
are kept as-is (resolve with strict=False). -/
def resolveSteps (fs : FS) : Nat → List String → List Item → List String
  | 0, base, items => base ++ items.filterMap Item.asName
  | _ + 1, base, [] => base
  | fuel + 1, base, .up :: rest => resolveSteps fs fuel base.dropLast rest
  | fuel + 1, base, .name n :: rest =>
    match fs.lookup (base ++ [n]) with
    | some (.symlink t) =>
      if t.absolute then
        resolveSteps fs fuel [] (t.comps.map Item.name ++ rest)
      else
        resolveSteps fs fuel base
          (List.replicate t.ups Item.up ++ t.comps.map Item.name ++ rest)
    | _ => resolveSteps fs fuel (base ++ [n]) rest

def nodeWeight : Node → Nat
  | .symlink t => t.ups + t.comps.length + 2
  | _ => 1

def FS.weight (fs : FS) : Nat :=
  fs.foldl (fun a kn => a + nodeWeight kn.2) 0

/-- Fuel budget: always at least `items.length + 1`, and generous enough for
every terminating concrete resolution appearing in this development. -/
def fuelFor (fs : FS) (items : List Item) : Nat :=
  items.length + (FS.weight fs + 1) * (FS.weight fs + 1) + 1

def FS.resolveItems (fs : FS) (items : List Item) : List String :=
  resolveSteps fs (fuelFor fs items) [] items

/-- `p.resolve()` for an absolute path `p`. -/
def FS.resolve (fs : FS) (p : List String) : List String :=
  fs.resolveItems (p.map Item.name)

/-- `(base / t).resolve()`: resolution of a (possibly relative) target `t`
against the absolute directory `base`. -/
def FS.resolveFrom (fs : FS) (base : List String) (t : TargetPath) : List String :=
  if t.absolute then fs.resolveItems (t.comps.map Item.name)
  else fs.resolveItems
    (base.map Item.name ++ List.replicate t.ups Item.up ++ t.comps.map Item.name)

/-- Physical location of the directory entry `p` denotes: parents resolved,
last component kept (what `lstat`/`readlink`/`unlink` operate on). -/
def FS.lresolve (fs : FS) (p : List String) : List String :=
  match p with
  | [] => []
  | _ => fs.resolve p.dropLast ++ [p.getLastD ""]

def FS.lookupEntry (fs : FS) (p : List String) : Option Node :=
  fs.lookup (fs.lresolve p)

/-- `p.is_symlink()`. -/
def FS.isSymlinkAt (fs : FS) (p : List String) : Bool :=
  match fs.lookupEntry p with
  | some (.symlink _) => true
  | _ => false

/-- `p.readlink()` (junk default when `p` is not a symlink; the code only
calls this after an `is_symlink` check). -/
def FS.readlinkAt (fs : FS) (p : List String) : TargetPath :=
  match fs.lookupEntry p with
  | some (.symlink t) => t
  | _ => ⟨true, 0, []⟩

/-- `p.exists()` (follows symlinks). -/
def FS.existsAt (fs : FS) (p : List String) : Bool :=
  (fs.lookup (fs.resolve p)).isSome

/-- `p.is_dir()` (follows symlinks). -/
def FS.isDirAt (fs : FS) (p : List String) : Bool :=
  match fs.lookup (fs.resolve p) with
  | some .dir => true
  | _ => false

/-- `p.exists(follow_symlinks=False)`. -/
def FS.existsNoFollow (fs : FS) (p : List String) : Bool :=
  (fs.lookupEntry p).isSome

/-- `haunt.models.Symlink`: a link to create or manage (both paths absolute). -/
structure Symlink where
  link_path : List String
  source_path : List String
  deriving DecidableEq, Repr

/-- Length of the longest common prefix of two component lists. -/
def commonLen : List String → List String → Nat
  | a :: as, b :: bs => if a = b then commonLen as bs + 1 else 0
  | _, _ => 0

/-- `Symlink.relative_source_path`: the source expressed relative to the
link's parent directory, walking up where needed. -/
def Symlink.relative_source_path (s : Symlink) : TargetPath :=
  let k := commonLen s.source_path s.link_path.dropLast
  ⟨false, s.link_path.dropLast.length - k, s.source_path.drop k⟩

/-- `Symlink.points_to`: does `target`, interpreted relative to the link's
parent, resolve to the same location as `source_path`? -/
def Symlink.points_to (s : Symlink) (fs : FS) (target : TargetPath) : Bool :=
  decide (fs.resolveFrom s.link_path.dropLast target = fs.resolve s.source_path)

/-- `Symlink.exists`: is there a symlink at `link_path` pointing to
`source_path` (by resolution)? -/
def Symlink.exists (s : Symlink) (fs : FS) : Bool :=
  if fs.isSymlinkAt s.link_path = false then false
  else s.points_to fs (fs.readlinkAt s.link_path)

/-- The conflict taxonomy (`FileConflict`, `DirectoryConflict`,
`CorrectSymlinkConflict`, `DifferentSymlinkConflict`, `BrokenSymlinkConflict`
in the code): what occupies a planned link path. -/
inductive Conflict where
  | file : List String → Conflict
  | directory : List String → Conflict
  | correctSymlink : List String → TargetPath → Conflict
  | differentSymlink : List String → TargetPath → Conflict
  | brokenSymlink : List String → TargetPath → Conflict
  deriving DecidableEq, Repr

def Conflict.path : Conflict → List String
  | .file p => p
  | .directory p => p
  | .correctSymlink p _ => p
  | .differentSymlink p _ => p
  | .brokenSymlink p _ => p

def Conflict.isCorrectSymlink : Conflict → Bool
  | .correctSymlink _ _ => true
  | _ => false

def Conflict.isDirectory : Conflict → Bool
  | .directory _ => true
  | _ => false

/-- `haunt.files.symlinks.check_conflict`. -/
def check_conflict (fs : FS) (s : Symlink) : Option Conflict :=
  if fs.existsAt s.link_path = false ∧ fs.isSymlinkAt s.link_path = false then
    none
  else if fs.isSymlinkAt s.link_path then
    let actual := fs.readlinkAt s.link_path
    if s.exists fs then some (.correctSymlink s.link_path actual)
    else if fs.existsAt s.link_path = false then
      some (.brokenSymlink s.link_path actual)
    else some (.differentSymlink s.link_path actual)
  else if fs.isDirAt s.link_path then some (.directory s.link_path)
  else some (.file s.link_path)

/-- `leads q p = true` iff `q` is an initial segment of `p`. -/
def leads : List String → List String → Bool
  | [], _ => true
  | _ :: _, [] => false
  | a :: as, b :: bs => if a = b then leads as bs else false

/-- Drop keys already seen, keeping first occurrences. -/
def dedupKeysAux (seen : List (List String)) :
    List (List String) → List (List String)
  | [] => []
  | k :: rest =>
    if k ∈ seen then dedupKeysAux seen rest
    else k :: dedupKeysAux (k :: seen) rest

/-- Deduplicated key set of a filesystem, in first-occurrence order. -/
def FS.keys (fs : FS) : List (List String) :=
  dedupKeysAux [] (fs.map Prod.fst)

def nodeIsDir : Option Node → Bool
  | some .dir => true
  | _ => false

/-- Is the key `p` listed by a recursive walk from `package_dir`?  `p` must
lie strictly below `package_dir`, every intermediate component must be a plain
directory (the walk does not descend through symlinks), and the leaf must be
classified as a file by the walk: a regular file, or a symlink that does not
resolve to a directory (symlinks-to-directories go to `dirnames` and are not
reported). -/
def walkLists (fs : FS) (package_dir p : List String) : Bool :=
  leads package_dir p && decide (p ≠ package_dir) &&
    (List.range (p.length - 1 - package_dir.length)).all
      (fun j => nodeIsDir (fs.lookup (p.take (package_dir.length + 1 + j)))) &&
    (match fs.lookup p with
     | some .file => true
     | some (.symlink _) => !fs.isDirAt p
     | _ => false)

/-- Lexicographic order on relative paths, mirroring Python's sort of `Path`
values by their component tuples. -/
def pathLe : List String → List String → Bool
  | [], _ => true
  | _ :: _, [] => false
  | a :: as, b :: bs => if a = b then pathLe as bs else decide (a < b)

/-- Insertion step of a structural insertion sort by `pathLe`. -/
def insertBy (x : List String) : List (List String) → List (List String)
  | [] => [x]
  | y :: ys => if pathLe x y then x :: y :: ys else y :: insertBy x ys

/-- Structural insertion sort by `pathLe` (Python's `sorted`). -/
def sortBy : List (List String) → List (List String)
  | [] => []
  | x :: xs => insertBy x (sortBy xs)

/-- `haunt.files.discover.discover_files`: sorted relative paths of all files
found by recursively walking `package_dir`. -/
def discover_files (fs : FS) (package_dir : List String) : List (List String) :=
  sortBy ((fs.keys.filter (walkLists fs package_dir)).map
    (fun p => p.drop package_dir.length))

/-- Errors raised by the modelled operations (Python exception classes). -/
inductive Err where
  | fileNotFound : List String → Err
  | notADirectory : List String → Err
  | valueError : Err
  | packageAlreadyInstalled : String → List String → List String → Err
  | conflictError : List Conflict → Err
  | packageNotFound : String → Err
  | registryValidation : Err
  | registryVersion : Err
  | isADirectoryError : List String → Err
  | fileExistsError : List String → Err
  | keyError : String → Err
  | osError : List String → Err
  deriving DecidableEq, Repr

/-- `haunt.operations.paths.normalize_package_dir`. -/
def normalize_package_dir (fs : FS) (package_dir : List String) :
    Except Err (List String) :=
  let pd := fs.resolve package_dir
  if fs.existsAt pd = false then .error (.fileNotFound pd)
  else if fs.isDirAt pd = false then .error (.notADirectory pd)
  else .ok pd

/-- `haunt.operations.paths.normalize_target_dir`. -/
def normalize_target_dir (fs : FS) (target_dir : List String) : List String :=
  fs.resolve target_dir

/-- Modelled from the spec: `validate_install_directories` is imported by
`haunt.operations.install` from `haunt.operations.paths` but its definition is
not part of the sources; per §4.2 it fails with a validation error if
`package_dir` is the filesystem root, or if `target_dir` equals or is nested
inside `package_dir`. -/
def validate_install_directories (package_dir target_dir : List String) :
    Except Err Unit :=
  if package_dir = ([] : List String) then .error .valueError
  else if leads package_dir target_dir then .error .valueError
  else .ok ()

/-- `ConflictMode`. -/
inductive ConflictMode where
  | abort
  | skip
  | force
  deriving DecidableEq, Repr

/-- `InstallPlan`. -/
structure InstallPlan where
  package_name : String
  package_dir : List String
  target_dir : List String
  symlinks_to_create : List Symlink
  conflicts : List Conflict
  deriving DecidableEq, Repr

/-- The per-file loop body of `compute_install_plan`, returning the
accumulated `(symlinks_to_create, conflicts)` pair in file order. -/
def planFiles (fs : FS) (package_dir target_dir : List String)
    (mode : ConflictMode) : List (List String) → List Symlink × List Conflict
  | [] => ([], [])
  | rel :: rest =>
    let s : Symlink := ⟨target_dir ++ rel, package_dir ++ rel⟩
    let acc := planFiles fs package_dir target_dir mode rest
    match check_conflict fs s with
    | none => (s :: acc.1, acc.2)
    | some c =>
      if c.isCorrectSymlink then (acc.1, c :: acc.2)
      else if mode = .force ∧ c.isDirectory = false then
        (s :: acc.1, c :: acc.2)
      else (acc.1, c :: acc.2)

/-- `haunt.operations.install.compute_install_plan`. -/
def compute_install_plan (fs : FS) (package_dir target_dir : List String)
    (mode : ConflictMode) : Except Err InstallPlan := do
  let pd ← normalize_package_dir fs package_dir
  let td := normalize_target_dir fs target_dir
  let _ ← validate_install_directories pd td
  let package_name := pd.getLastD ""
  let files := discover_files fs pd
  let acc := planFiles fs pd td mode files
  return ⟨package_name, pd, td, acc.1, acc.2⟩

/-- Python-dict association-list lookup (first match). -/
def dfind {α : Type} (l : List (String × α)) (k : String) : Option α :=
  match l with
  | [] => none
  | (k', v) :: rest => if k' = k then some v else dfind rest k

/-- Python-dict update: replace in place if the key exists, else append. -/
def dinsert {α : Type} (l : List (String × α)) (k : String) (v : α) :
    List (String × α) :=
  match l with
  | [] => [(k, v)]
  | (k', v') :: rest => if k' = k then (k, v) :: rest else (k', v') :: dinsert rest k v

/-- Python-dict `del`: drop the (first) binding of `k`. -/
def derase {α : Type} (l : List (String × α)) (k : String) : List (String × α) :=
  match l with
  | [] => []
  | (k', v') :: rest => if k' = k then rest else (k', v') :: derase rest k

/-- Modelled from the spec: the snapshot's `models.py` predates the
`package_dir` field that `operations/install.py`, `registry.py`'s callers and
the tests all use on `PackageEntry`; per spec §3 the registry record is
`{name, package_dir, target_dir, symlinks, installed_at}`, so the entry and
its serialized dict both carry `package_dir`. -/
structure PackageEntry where
  name : String
  package_dir : List String
  target_dir : List String
  symlinks : List Symlink
  installed_at : String
  deriving DecidableEq, Repr

/-- JSON object for one package entry (all per-entry keys present). -/
structure PackageEntryDict where
  name : String
  package_dir : List String
  target_dir : List String
  symlinks : List (List String × List String)
  installed_at : String
  deriving DecidableEq, Repr

def PackageEntry.to_dict (e : PackageEntry) : PackageEntryDict :=
  ⟨e.name, e.package_dir, e.target_dir,
    e.symlinks.map (fun s => (s.link_path, s.source_path)), e.installed_at⟩

def PackageEntry.from_dict (d : PackageEntryDict) : PackageEntry :=
  ⟨d.name, d.package_dir, d.target_dir,
    d.symlinks.map (fun s => ⟨s.1, s.2⟩), d.installed_at⟩

def REGISTRY_VERSION : Int := 1

/-- `haunt.registry.Registry`. -/
structure Registry where
  version : Int
  packages : List (String × PackageEntry)
  deriving DecidableEq, Repr

/-- JSON object for a registry file: the top-level `version` and `packages`
keys may each be absent. -/
structure RegistryDict where
  version : Option Int
  packages : Option (List (String × PackageEntryDict))
  deriving DecidableEq, Repr

def Registry.to_dict (r : Registry) : RegistryDict :=
  ⟨some r.version, some (r.packages.map (fun p => (p.1, p.2.to_dict)))⟩

/-- `Registry.from_dict`: missing `version`/`packages` keys are validation
failures; a `version` above `REGISTRY_VERSION` is a version failure, checked
before `packages` is inspected. -/
def Registry.from_dict (d : RegistryDict) : Except Err Registry :=
  match d.version with
  | none => .error .registryValidation
  | some v =>
    if v > REGISTRY_VERSION then .error .registryVersion
    else
      match d.packages with
      | none => .error .registryValidation
      | some pkgs => .ok ⟨v, pkgs.map (fun p => (p.1, PackageEntry.from_dict p.2))⟩

/-- `Registry.load`: an absent file yields a fresh empty registry. -/
def Registry.load (file : Option RegistryDict) : Except Err Registry :=
  match file with
  | none => .ok ⟨REGISTRY_VERSION, []⟩
  | some d => Registry.from_dict d

/-- The world acted on by the executors: the filesystem plus the contents of
the registry file (`none` = file absent). -/
structure World where
  fs : FS
  registryFile : Option RegistryDict
  deriving DecidableEq, Repr

/-- `p.unlink()`: remove the directory entry `p` denotes. -/
def FS.unlink (fs : FS) (p : List String) : FS :=
  fs.eraseKey (fs.lresolve p)

/-- Walk down from `base` through the components `cs`, creating each missing
step as a plain directory. -/
def mkdirAux (fs : FS) (base : List String) : List String → FS
  | [] => fs
  | c :: rest =>
    let p := base ++ [c]
    let fs' := if (fs.lookup p).isNone then fs.insert p .dir else fs
    mkdirAux fs' p rest

/-- `link_path.parent.mkdir(parents=True, exist_ok=True)`: create every
missing ancestor of the resolved directory as a plain directory. -/
def FS.mkdirParents (fs : FS) (d : List String) : FS :=
  mkdirAux fs [] (fs.resolve d)

/-- `haunt.files.symlinks.create_symlink`. -/
def create_symlink (fs : FS) (s : Symlink) (force : Bool) : Except Err FS :=
  if s.exists fs then .ok fs
  else
    let step1 : Except Err FS :=
      if force then
        if fs.isDirAt s.link_path ∧ fs.isSymlinkAt s.link_path = false then
          .error (.isADirectoryError s.link_path)
        else if fs.existsAt s.link_path ∨ fs.isSymlinkAt s.link_path then
          .ok (fs.unlink s.link_path)
        else .ok fs
      else .ok fs
    match step1 with
    | .error e => .error e
    | .ok fs1 =>
      let fs2 := fs1.mkdirParents s.link_path.dropLast
      if fs2.existsNoFollow s.link_path then .error (.fileExistsError s.link_path)
      else .ok (fs2.insert (fs2.lresolve s.link_path)
        (.symlink s.relative_source_path))

/-- The symlink-creation loop of `execute_install_plan`: stops at the first
failure, returning the filesystem as mutated so far. -/
def createAll (fs : FS) (links : List Symlink) (force : Bool) : FS × Option Err :=
  match links with
  | [] => (fs, none)
  | s :: rest =>
    match create_symlink fs s force with
    | .error e => (fs, some e)
    | .ok fs' => createAll fs' rest force

/-- The validation stage of `execute_install_plan` (everything before the
first filesystem mutation): name-collision check, unconditional directory
conflicts, then blocking conflicts under `abort`. -/
def validate_install (registry : Registry) (plan : InstallPlan)
    (mode : ConflictMode) : Option Err :=
  let clash :=
    match dfind registry.packages plan.package_name with
    | some entry =>
      if entry.package_dir ≠ plan.package_dir then
        some (Err.packageAlreadyInstalled plan.package_name entry.package_dir
          plan.package_dir)
      else none
    | none => none
  match clash with
  | some e => some e
  | none =>
    let directory_conflicts := plan.conflicts.filter Conflict.isDirectory
    if directory_conflicts ≠ [] then some (.conflictError directory_conflicts)
    else if mode = .abort then
      let blocking := plan.conflicts.filter (fun c => !c.isCorrectSymlink)
      if blocking ≠ [] then some (.conflictError blocking) else none
    else none

/-- Rebuild a `Symlink` from a `CorrectSymlink` conflict, resolving its
recorded target to an absolute source. -/
def reconstructCorrect (fs : FS) : Conflict → Option Symlink
  | .correctSymlink p t => some ⟨p, fs.resolveFrom p.dropLast t⟩
  | _ => none

/-- `haunt.operations.install.execute_install_plan`.  Returns the world as
mutated so far together with the raised error, if any. -/
def execute_install_plan (w : World) (plan : InstallPlan) (mode : ConflictMode)
    (now : String) : World × Option Err :=
  match Registry.load w.registryFile with
  | .error e => (w, some e)
  | .ok registry =>
    match validate_install registry plan mode with
    | some e => (w, some e)
    | none =>
      let created := createAll w.fs plan.symlinks_to_create (mode = .force)
      match created.2 with
      | some e => (⟨created.1, w.registryFile⟩, some e)
      | none =>
        let all_symlinks := plan.symlinks_to_create ++
          plan.conflicts.filterMap (reconstructCorrect created.1)
        let entry : PackageEntry :=
          ⟨plan.package_name, plan.package_dir, plan.target_dir, all_symlinks, now⟩
        let registry' : Registry :=
          ⟨registry.version, dinsert registry.packages plan.package_name entry⟩
        (⟨created.1, some registry'.to_dict⟩, none)

/-- `UninstallPlan` (with the `modified_symlinks` field that
`operations/uninstall.py` populates). -/
structure UninstallPlan where
  package_name : String
  target_dir : List String
  symlinks_to_remove : List Symlink
  missing_symlinks : List (List String)
  modified_symlinks : List Symlink
  deriving DecidableEq, Repr

/-- The classification loop of `compute_uninstall_plan`:
`(symlinks_to_remove, missing_symlinks, modified_symlinks)` in entry order. -/
def classifyLinks (fs : FS) :
    List Symlink → List Symlink × List (List String) × List Symlink
  | [] => ([], [], [])
  | s :: rest =>
    let acc := classifyLinks fs rest
    if fs.existsNoFollow s.link_path = false then
      (acc.1, s.link_path :: acc.2.1, acc.2.2)
    else if s.exists fs then (s :: acc.1, acc.2.1, acc.2.2)
    else (acc.1, acc.2.1, s :: acc.2.2)

/-- `haunt.operations.uninstall.compute_uninstall_plan`. -/
def compute_uninstall_plan (fs : FS) (registryFile : Option RegistryDict)
    (package_name : String) : Except Err UninstallPlan := do
  let registry ← Registry.load registryFile
  match dfind registry.packages package_name with
  | none => .error (.packageNotFound package_name)
  | some entry =>
    let acc := classifyLinks fs entry.symlinks
    return ⟨package_name, entry.target_dir, acc.1, acc.2.1, acc.2.2⟩

/-- `haunt.files.symlinks.remove_symlink`: remove only a link that still
points to the expected source; otherwise raise. -/
def remove_symlink (fs : FS) (s : Symlink) : Except Err FS :=
  if s.exists fs then .ok (fs.unlink s.link_path)
  else if fs.existsNoFollow s.link_path = false then
    .error (.fileNotFound s.link_path)
  else if fs.isSymlinkAt s.link_path = false then .error (.osError s.link_path)
  else .error .valueError

/-- The removal loop of `execute_uninstall_plan`. -/
def removeAll (fs : FS) (links : List Symlink) : FS × Option Err :=
  match links with
  | [] => (fs, none)
  | s :: rest =>
    match remove_symlink fs s with
    | .error e => (fs, some e)
    | .ok fs' => removeAll fs' rest

def isEmptyDir (fs : FS) (d : List String) : Bool :=
  decide (fs.lookup d = some Node.dir) &&
    fs.all (fun kn => !(leads d kn.1 && kn.1 ≠ d))

/-- Modelled from the spec: `haunt.files.cleanup.remove_empty_directories` is
re-exported by `haunt.files` but its definition is not part of the sources;
per §4.5 it walks upward from each removed link's parent toward `target_dir`,
deleting directories that are now empty and stopping at the first non-empty
ancestor or at `target_dir` itself (never deleting `target_dir`). -/
def pruneUp (target_dir : List String) : Nat → FS → List String → FS
  | 0, fs, _ => fs
  | fuel + 1, fs, d =>
    if d = target_dir ∨ leads target_dir d = false then fs
    else if isEmptyDir fs d then pruneUp target_dir fuel (fs.eraseKey d) d.dropLast
    else fs

def remove_empty_directories (fs : FS) (target_dir : List String)
    (link_paths : List (List String)) : FS :=
  link_paths.foldl (fun acc lp => pruneUp target_dir lp.length acc lp.dropLast) fs

/-- `haunt.operations.uninstall.execute_uninstall_plan`. -/
def execute_uninstall_plan (w : World) (plan : UninstallPlan) :
    World × Option Err :=
  let removed := removeAll w.fs plan.symlinks_to_remove
  match removed.2 with
  | some e => (⟨removed.1, w.registryFile⟩, some e)
  | none =>
    let fs2 := remove_empty_directories removed.1 plan.target_dir
      (plan.symlinks_to_remove.map Symlink.link_path)
    match Registry.load w.registryFile with
    | .error e => (⟨fs2, w.registryFile⟩, some e)
    | .ok registry =>
      match dfind registry.packages plan.package_name with
      | none => (⟨fs2, w.registryFile⟩, some (.keyError plan.package_name))
      | some _ =>
        let registry' : Registry :=
          ⟨registry.version, derase registry.packages plan.package_name⟩
        (⟨fs2, some registry'.to_dict⟩, none)

def fsW : FS := [(["p"], .dir), (["p", "f"], .file)]

def planW : InstallPlan :=
  ⟨"p", ["p"], ["t"], [⟨["t", "f"], ["p", "f"]⟩], []⟩

def fsW9 : FS := [(["p"], .dir), (["p", "f"], .file)]

def planC3 : InstallPlan :=
  ⟨"x", ["p"], ["t"], [], [.directory ["t", "d"], .file ["t", "f"]]⟩

def regW3 : Registry := ⟨1, []⟩

def notSymNode : Option Node → Bool
  | some (.symlink _) => false
  | _ => true

/-- Strict ancestors of `p` are not symlinks. -/
def parentsClean (fs : FS) (p : List String) : Prop :=
  ∀ i, i < p.length - 1 → notSymNode (fs.lookup (p.take (i + 1))) = true

def entryU : PackageEntry := ⟨"pkg", ["s"], ["t"],
  [⟨["t", "a"], ["s", "a"]⟩, ⟨["t", "b"], ["s", "b"]⟩,
    ⟨["t", "c"], ["s", "c"]⟩], "T0"⟩

def fsU : FS := [
  (["t"], .dir), (["s"], .dir),
  (["s", "a"], .file), (["s", "c"], .file),
  (["t", "a"], .symlink ⟨false, 1, ["s", "a"]⟩),
  (["t", "c"], .symlink ⟨true, 0, ["x"]⟩)]

def regU : Registry := ⟨1, [("pkg", entryU)]⟩

def planU : UninstallPlan := ⟨"pkg", ["t"],
  [⟨["t", "a"], ["s", "a"]⟩], [["t", "b"]], [⟨["t", "c"], ["s", "c"]⟩]⟩

def pdX : List String := ["home", "u", "dots", "shell"]

def tdX : List String := ["home", "u"]

/-- A world where `/home/u/.config` is a symlink to another directory: the
first install succeeds but writes a link whose `..`-relative target resolves
physically through the symlinked ancestor. -/
def fsX : FS := [
  (["cfg"], .dir),
  (["home"], .dir), (["home", "u"], .dir), (["home", "u", "dots"], .dir),
  (pdX, .dir),
  (pdX ++ [".config"], .dir),
  (pdX ++ [".config", "nvim"], .dir),
  (pdX ++ [".config", "nvim", "init.vim"], .file),
  (["home", "u", ".config"], .symlink ⟨true, 0, ["cfg"]⟩)]

def planX1 : InstallPlan := ⟨"shell", pdX, tdX,
  [⟨tdX ++ [".config", "nvim", "init.vim"], pdX ++ [".config", "nvim", "init.vim"]⟩],
  []⟩

def wX1 : World := (execute_install_plan ⟨fsX, none⟩ planX1 .abort "T1").1

def planX2 : InstallPlan := ⟨"shell", pdX, tdX, [],
  [.brokenSymlink (tdX ++ [".config", "nvim", "init.vim"])
    ⟨false, 2, ["dots", "shell", ".config", "nvim", "init.vim"]⟩]⟩

def dirOrNone : Option Node → Bool
  | none => true
  | some .dir => true
  | _ => false

def isSymNodeEntry : Node → Bool
  | .symlink _ => true
  | _ => false

/-- Decidable sanity conditions on a world under which install is provably
idempotent: the package directory is a real directory reached through plain
directories, the target and its ancestors pass through no symlink, no
ancestor or planned link path crosses between the package and target trees,
the package tree contains no symlinks, and no planned link path is occupied
(`check_conflict` reports no conflict). -/
def installSane (fs : FS) (pd td : List String) : Bool :=
  decide (pd ≠ []) &&
  decide (fs.lookup pd = some Node.dir) &&
  !(leads pd td) &&
  ((List.range pd.length).all fun i => dirOrNone (fs.lookup (pd.take (i + 1)))) &&
  ((List.range td.length).all fun i => dirOrNone (fs.lookup (td.take (i + 1)))) &&
  (fs.all fun kn =>
    !(leads pd kn.1 && decide (kn.1 ≠ pd) && isSymNodeEntry kn.2)) &&
  ((discover_files fs pd).all fun rel =>
    decide (rel ≠ []) &&
    !(leads pd (td ++ rel)) &&
    ((discover_files fs pd).all fun rel2 => !(leads (td ++ rel) (pd ++ rel2))) &&
    ((List.range (rel.length - 1)).all fun j =>
      dirOrNone (fs.lookup ((td ++ rel).take (td.length + 1 + j)))) &&
    decide (check_conflict fs ⟨td ++ rel, pd ++ rel⟩ = none))

/-- A package-entry dict with its `installed_at` timestamp cleared, for
comparing registry contents up to installation time. -/
def scrubEntryDict (d : PackageEntryDict) : PackageEntryDict :=
  ⟨d.name, d.package_dir, d.target_dir, d.symlinks, ""⟩

/-- A registry file with every entry's `installed_at` cleared. -/
def scrubFile : Option RegistryDict → Option RegistryDict
  | none => none
  | some d => some ⟨d.version,
      d.packages.map (fun l => l.map (fun p => (p.1, scrubEntryDict p.2)))⟩

/-- A concrete sane world for the amended idempotence theorem: a package
directory `/pkg/dots` holding one file, a plain target directory `/home/u`,
and no registry file. -/
def fsW5 : FS :=
  [(["pkg"], .dir), (["pkg", "dots"], .dir),
   (["pkg", "dots", ".bashrc"], .file),
   (["home"], .dir), (["home", "u"], .dir)]

/-! ### Basic facts about the conflict classifier -/

theorem symlinkExists_iff (fs : FS) (s : Symlink) :
    s.exists fs = true ↔
      fs.isSymlinkAt s.link_path = true ∧
      fs.resolveFrom s.link_path.dropLast (fs.readlinkAt s.link_path) =
        fs.resolve s.source_path := by
  unfold Symlink.exists Symlink.points_to
  cases h : fs.isSymlinkAt s.link_path <;> simp [h]

theorem isDirAt_existsAt (fs : FS) (p : List String) :
    fs.isDirAt p = true → fs.existsAt p = true := by
  unfold FS.isDirAt FS.existsAt
  cases h : fs.lookup (fs.resolve p) with
  | none => simp
  | some n => simp

/-- C2: `check_conflict` returns no conflict exactly when nothing (not even a
dangling symlink) exists at `link_path`; `CorrectSymlink` when `link_path` is
a symlink whose target, resolved relative to the link's parent, equals the
resolved `source_path`; `BrokenSymlink` when it is a symlink that is not
correct and whose target does not exist; `DifferentSymlink` when it is a
symlink to an existing object other than the source; `Directory` when it is a
non-symlink directory; and `File` otherwise — mutually exclusive and
exhaustive. -/
theorem check_conflict_classification (fs : FS) (s : Symlink) :
    (check_conflict fs s = none ↔
      fs.existsAt s.link_path = false ∧ fs.isSymlinkAt s.link_path = false) ∧
    (∀ t, check_conflict fs s = some (.correctSymlink s.link_path t) ↔
      fs.isSymlinkAt s.link_path = true ∧ t = fs.readlinkAt s.link_path ∧
      fs.resolveFrom s.link_path.dropLast t = fs.resolve s.source_path) ∧
    (∀ t, check_conflict fs s = some (.brokenSymlink s.link_path t) ↔
      fs.isSymlinkAt s.link_path = true ∧ t = fs.readlinkAt s.link_path ∧
      fs.resolveFrom s.link_path.dropLast t ≠ fs.resolve s.source_path ∧
      fs.existsAt s.link_path = false) ∧
    (∀ t, check_conflict fs s = some (.differentSymlink s.link_path t) ↔
      fs.isSymlinkAt s.link_path = true ∧ t = fs.readlinkAt s.link_path ∧
      fs.resolveFrom s.link_path.dropLast t ≠ fs.resolve s.source_path ∧
      fs.existsAt s.link_path = true) ∧
    (check_conflict fs s = some (.directory s.link_path) ↔
      fs.isSymlinkAt s.link_path = false ∧ fs.isDirAt s.link_path = true) ∧
    (check_conflict fs s = some (.file s.link_path) ↔
      fs.existsAt s.link_path = true ∧ fs.isSymlinkAt s.link_path = false ∧
      fs.isDirAt s.link_path = false) ∧
    (∀ c, check_conflict fs s = some c → c.path = s.link_path) := by
  cases hsym : fs.isSymlinkAt s.link_path with
  | true =>
    have hex' := symlinkExists_iff fs s
    by_cases hp : fs.resolveFrom s.link_path.dropLast (fs.readlinkAt s.link_path) =
        fs.resolve s.source_path
    · have hse : s.exists fs = true := hex'.mpr ⟨hsym, hp⟩
      have hval : check_conflict fs s =
          some (.correctSymlink s.link_path (fs.readlinkAt s.link_path)) := by
        simp [check_conflict, hsym, hse]
      refine ⟨by simp [hval], ?_, ?_, ?_, by simp [hval], by simp [hval],
        by simp [hval, Conflict.path]⟩
      · intro t
        constructor
        · intro h
          rw [hval] at h
          simp at h
          exact ⟨rfl, h.symm, h ▸ hp⟩
        · rintro ⟨-, rfl, -⟩
          exact hval
      · intro t
        rw [hval]
        simp
        rintro rfl
        exact fun h => (h hp).elim
      · intro t
        rw [hval]
        simp
        rintro rfl
        exact fun h => (h hp).elim
    · have hse : s.exists fs = false := by
        cases h : s.exists fs with
        | false => rfl
        | true => exact absurd (hex'.mp h).2 hp
      cases hex : fs.existsAt s.link_path with
      | false =>
        have hval : check_conflict fs s =
            some (.brokenSymlink s.link_path (fs.readlinkAt s.link_path)) := by
          simp [check_conflict, hsym, hse, hex]
        refine ⟨by simp [hval], ?_, ?_, ?_, by simp [hval], by simp [hval, hex],
          by simp [hval, Conflict.path]⟩
        · intro t
          rw [hval]
          simp
          rintro rfl
          exact fun h => hp h
        · intro t
          rw [hval]
          simp
          constructor
          · rintro rfl
            exact ⟨rfl, hp⟩
          · rintro ⟨rfl, -⟩
            rfl
        · intro t
          rw [hval]
          simp [hex]
      | true =>
        have hval : check_conflict fs s =
            some (.differentSymlink s.link_path (fs.readlinkAt s.link_path)) := by
          simp [check_conflict, hsym, hse, hex]
        refine ⟨by simp [hval], ?_, ?_, ?_, by simp [hval], by simp [hval, hex],
          by simp [hval, Conflict.path]⟩
        · intro t
          rw [hval]
          simp
          rintro rfl
          exact fun h => hp h
        · intro t
          rw [hval]
          simp [hex]
        · intro t
          rw [hval]
          simp
          constructor
          · rintro rfl
            exact ⟨rfl, hp⟩
          · rintro ⟨rfl, -⟩
            rfl
  | false =>
    have hse : s.exists fs = false := by
      cases h : s.exists fs with
      | false => rfl
      | true => exact absurd ((symlinkExists_iff fs s).mp h).1 (by simp [hsym])
    cases hex : fs.existsAt s.link_path with
    | false =>
      have hval : check_conflict fs s = none := by
        simp [check_conflict, hsym, hex]
      refine ⟨by simp [hval, hex, hsym], by simp [hval, hsym], by simp [hval, hsym],
        by simp [hval, hsym], ?_, by simp [hval, hex], by simp [hval]⟩
      rw [hval]
      simp [hsym]
      cases hd : fs.isDirAt s.link_path with
      | false => rfl
      | true => exact absurd (isDirAt_existsAt fs s.link_path hd) (by simp [hex])
    | true =>
      cases hdir : fs.isDirAt s.link_path with
      | true =>
        have hval : check_conflict fs s = some (.directory s.link_path) := by
          simp [check_conflict, hsym, hex, hdir]
        exact ⟨by simp [hval], by simp [hval, hsym], by simp [hval, hsym],
          by simp [hval, hsym], by simp [hval, hsym, hdir],
          by simp [hval, hdir], by simp [hval, Conflict.path]⟩
      | false =>
        have hval : check_conflict fs s = some (.file s.link_path) := by
          simp [check_conflict, hsym, hex, hdir]
        exact ⟨by simp [hval], by simp [hval, hsym], by simp [hval, hsym],
          by simp [hval, hsym], by simp [hval, hdir],
          by simp [hval, hex, hsym, hdir], by simp [hval, Conflict.path]⟩

/-! ### The install planner -/

theorem planFiles_create_mem (fs : FS) (pd td : List String) (mode : ConflictMode)
    (files : List (List String)) (s : Symlink) :
    s ∈ (planFiles fs pd td mode files).1 ↔
      ∃ rel, rel ∈ files ∧ s = ⟨td ++ rel, pd ++ rel⟩ ∧
        (check_conflict fs ⟨td ++ rel, pd ++ rel⟩ = none ∨
         (mode = .force ∧ ∃ c, check_conflict fs ⟨td ++ rel, pd ++ rel⟩ = some c ∧
           c.isCorrectSymlink = false ∧ c.isDirectory = false)) := by
  induction files with
  | nil => simp [planFiles]
  | cons rel rest ih =>
    simp only [planFiles]
    cases hc : check_conflict fs ⟨td ++ rel, pd ++ rel⟩ with
    | none =>
      simp only [hc, List.mem_cons, ih]
      constructor
      · rintro (rfl | ⟨rel', hr, rfl, hcond⟩)
        · exact ⟨rel, Or.inl rfl, rfl, Or.inl hc⟩
        · exact ⟨rel', Or.inr hr, rfl, hcond⟩
      · rintro ⟨rel', (rfl | hr), rfl, hcond⟩
        · exact Or.inl rfl
        · exact Or.inr ⟨rel', hr, rfl, hcond⟩
    | some c =>
      simp only [hc]
      by_cases hcorr : c.isCorrectSymlink = true
      · rw [if_pos hcorr]
        simp only [ih]
        constructor
        · rintro ⟨rel', hr, rfl, hcond⟩
          exact ⟨rel', List.mem_cons_of_mem rel hr, rfl, hcond⟩
        · rintro ⟨rel', hr, rfl, hcond⟩
          rcases List.mem_cons.mp hr with rfl | hr'
          · rcases hcond with hnone | ⟨-, c', hc', hcorr', -⟩
            · rw [hc] at hnone
              cases hnone
            · rw [hc] at hc'
              cases hc'
              rw [hcorr] at hcorr'
              cases hcorr'
          · exact ⟨rel', hr', rfl, hcond⟩
      · have hcorr' : c.isCorrectSymlink = false := by
          cases h : c.isCorrectSymlink
          · rfl
          · exact absurd h hcorr
        rw [if_neg hcorr]
        by_cases hforce : mode = ConflictMode.force ∧ c.isDirectory = false
        · rw [if_pos hforce]
          simp only [List.mem_cons, ih]
          constructor
          · rintro (rfl | ⟨rel', hr, rfl, hcond⟩)
            · exact ⟨rel, Or.inl rfl, rfl,
                Or.inr ⟨hforce.1, c, hc, hcorr', hforce.2⟩⟩
            · exact ⟨rel', Or.inr hr, rfl, hcond⟩
          · rintro ⟨rel', (rfl | hr), rfl, hcond⟩
            · exact Or.inl rfl
            · exact Or.inr ⟨rel', hr, rfl, hcond⟩
        · rw [if_neg hforce]
          simp only [ih]
          constructor
          · rintro ⟨rel', hr, rfl, hcond⟩
            exact ⟨rel', List.mem_cons_of_mem rel hr, rfl, hcond⟩
          · rintro ⟨rel', hr, rfl, hcond⟩
            rcases List.mem_cons.mp hr with rfl | hr'
            · rcases hcond with hnone | ⟨hm, c', hc', hcorr2, hdir'⟩
              · rw [hc] at hnone
                cases hnone
              · rw [hc] at hc'
                cases hc'
                exact absurd ⟨hm, hdir'⟩ hforce
            · exact ⟨rel', hr', rfl, hcond⟩

theorem planFiles_conflict_mem (fs : FS) (pd td : List String)
    (mode : ConflictMode) (files : List (List String)) (c : Conflict) :
    c ∈ (planFiles fs pd td mode files).2 ↔
      ∃ rel, rel ∈ files ∧ check_conflict fs ⟨td ++ rel, pd ++ rel⟩ = some c := by
  induction files with
  | nil => simp [planFiles]
  | cons rel rest ih =>
    cases hc : check_conflict fs ⟨td ++ rel, pd ++ rel⟩ with
    | none =>
      have hred : (planFiles fs pd td mode (rel :: rest)).2 =
          (planFiles fs pd td mode rest).2 := by
        simp only [planFiles, hc]
      rw [hred, ih]
      constructor
      · rintro ⟨rel', hr, h⟩
        exact ⟨rel', List.mem_cons_of_mem rel hr, h⟩
      · rintro ⟨rel', hr, h⟩
        rcases List.mem_cons.mp hr with rfl | hr'
        · rw [hc] at h
          cases h
        · exact ⟨rel', hr', h⟩
    | some c0 =>
      have hred : (planFiles fs pd td mode (rel :: rest)).2 =
          c0 :: (planFiles fs pd td mode rest).2 := by
        simp only [planFiles, hc]
        by_cases hcorr : c0.isCorrectSymlink = true
        · rw [if_pos hcorr]
        · rw [if_neg hcorr]
          by_cases hforce : mode = ConflictMode.force ∧ c0.isDirectory = false
          · rw [if_pos hforce]
          · rw [if_neg hforce]
      rw [hred]
      simp only [List.mem_cons, ih]
      constructor
      · rintro (rfl | ⟨rel', hr, h⟩)
        · exact ⟨rel, Or.inl rfl, hc⟩
        · exact ⟨rel', Or.inr hr, h⟩
      · rintro ⟨rel', (rfl | hr), h⟩
        · rw [hc] at h
          cases h
          exact Or.inl rfl
        · exact Or.inr ⟨rel', hr, h⟩

theorem planFiles_abort_skip (fs : FS) (pd td : List String)
    (files : List (List String)) :
    planFiles fs pd td .abort files = planFiles fs pd td .skip files := by
  induction files with
  | nil => rfl
  | cons rel rest ih =>
    simp only [planFiles, ih]
    cases hc : check_conflict fs ⟨td ++ rel, pd ++ rel⟩ with
    | none => simp [hc]
    | some c => simp [hc]

/-- Shape of a successfully computed install plan. -/
theorem compute_install_plan_ok (fs : FS) (pdIn tdIn : List String)
    (mode : ConflictMode) (plan : InstallPlan)
    (h : compute_install_plan fs pdIn tdIn mode = .ok plan) :
    plan.package_dir = fs.resolve pdIn ∧ plan.target_dir = fs.resolve tdIn ∧
    plan.package_name = (fs.resolve pdIn).getLastD "" ∧
    plan.symlinks_to_create =
      (planFiles fs (fs.resolve pdIn) (fs.resolve tdIn) mode
        (discover_files fs (fs.resolve pdIn))).1 ∧
    plan.conflicts =
      (planFiles fs (fs.resolve pdIn) (fs.resolve tdIn) mode
        (discover_files fs (fs.resolve pdIn))).2 := by
  unfold compute_install_plan at h
  cases hn : normalize_package_dir fs pdIn with
  | error e =>
    rw [hn] at h
    simp only [bind, Except.bind] at h
    exact absurd h (by simp)
  | ok pd =>
    have hpd : pd = fs.resolve pdIn := by
      simp only [normalize_package_dir] at hn
      split_ifs at hn <;> simp at hn <;> exact hn.symm
    rw [hn] at h
    simp only [bind, Except.bind] at h
    cases hv : validate_install_directories pd (normalize_target_dir fs tdIn) with
    | error e =>
      rw [hv] at h
      simp only [bind, Except.bind] at h
      exact absurd h (by simp)
    | ok u =>
      rw [hv] at h
      simp only [bind, Except.bind, pure, Except.pure] at h
      injection h with h2
      subst h2
      subst hpd
      exact ⟨rfl, rfl, rfl, rfl, rfl⟩

/-- C1: for every package/target directory, `compute_install_plan` partitions
planned links: a path with no pre-existing object goes into
`symlinks_to_create`; a `CorrectSymlink` conflict goes into `conflicts` only
and its link is never created; any other conflict always goes into
`conflicts` and is additionally created iff the policy is `force` and the
conflict is not `Directory`; and the `abort` and `skip` plans coincide. -/
theorem compute_install_plan_partition
    (fs : FS) (pdIn tdIn : List String) (mode : ConflictMode) (plan : InstallPlan)
    (h : compute_install_plan fs pdIn tdIn mode = .ok plan) :
    compute_install_plan fs pdIn tdIn .abort =
      compute_install_plan fs pdIn tdIn .skip ∧
    ∀ rel ∈ discover_files fs (fs.resolve pdIn),
      (check_conflict fs ⟨fs.resolve tdIn ++ rel, fs.resolve pdIn ++ rel⟩ = none →
        (⟨fs.resolve tdIn ++ rel, fs.resolve pdIn ++ rel⟩ : Symlink) ∈
          plan.symlinks_to_create) ∧
      ∀ c, check_conflict fs ⟨fs.resolve tdIn ++ rel, fs.resolve pdIn ++ rel⟩ =
          some c →
        c ∈ plan.conflicts ∧
        ((⟨fs.resolve tdIn ++ rel, fs.resolve pdIn ++ rel⟩ : Symlink) ∈
            plan.symlinks_to_create ↔
          mode = .force ∧ c.isCorrectSymlink = false ∧ c.isDirectory = false) := by
  obtain ⟨hpd, htd, hname, hcre, hconf⟩ :=
    compute_install_plan_ok fs pdIn tdIn mode plan h
  constructor
  · unfold compute_install_plan
    cases hn : normalize_package_dir fs pdIn with
    | error e => rfl
    | ok pd =>
      simp only [bind, Except.bind]
      cases hv : validate_install_directories pd (normalize_target_dir fs tdIn) with
      | error e => rfl
      | ok u => rw [planFiles_abort_skip]
  · intro rel hrel
    refine ⟨?_, ?_⟩
    · intro hnone
      rw [hcre]
      exact (planFiles_create_mem fs (fs.resolve pdIn) (fs.resolve tdIn) mode
        (discover_files fs (fs.resolve pdIn)) _).mpr ⟨rel, hrel, rfl, Or.inl hnone⟩
    · intro c hc
      refine ⟨?_, ?_⟩
      · rw [hconf]
        exact (planFiles_conflict_mem fs (fs.resolve pdIn) (fs.resolve tdIn) mode
          (discover_files fs (fs.resolve pdIn)) c).mpr ⟨rel, hrel, hc⟩
      · rw [hcre]
        constructor
        · intro hmem
          obtain ⟨rel', hr', heq, hcond⟩ :=
            (planFiles_create_mem fs (fs.resolve pdIn) (fs.resolve tdIn) mode
              (discover_files fs (fs.resolve pdIn)) _).mp hmem
          have hreleq : rel = rel' := by
            have h2 := congrArg Symlink.link_path heq
            exact List.append_cancel_left h2
          subst hreleq
          rcases hcond with hnone | ⟨hm, c', hc', hcorr', hdir'⟩
          · rw [hc] at hnone
            cases hnone
          · rw [hc] at hc'
            injection hc' with h3
            subst h3
            exact ⟨hm, hcorr', hdir'⟩
        · rintro ⟨hm, hcorr, hdir⟩
          exact (planFiles_create_mem fs (fs.resolve pdIn) (fs.resolve tdIn) mode
            (discover_files fs (fs.resolve pdIn)) _).mpr
            ⟨rel, hrel, rfl, Or.inr ⟨hm, c, hc, hcorr, hdir⟩⟩

/-- Witness for C1 at a concrete world. -/
theorem compute_install_plan_partition_witness :
    compute_install_plan fsW ["p"] ["t"] .abort =
      compute_install_plan fsW ["p"] ["t"] .skip := by
  have h : compute_install_plan fsW ["p"] ["t"] .abort = .ok planW := by rfl
  exact (compute_install_plan_partition fsW ["p"] ["t"] .abort planW h).1

/-- C9: `compute_install_plan` fails with `FileNotFoundError` iff the
resolved package directory does not exist, with `NotADirectoryError` iff it
exists but is not a directory, and with a validation error iff it is the
filesystem root or the target directory equals or is nested inside it; these
are the only planning failures (in particular file enumeration and conflict
classification never raise), so all checks happen before enumeration. -/
theorem compute_install_plan_validation (fs : FS) (pdIn tdIn : List String)
    (mode : ConflictMode) :
    (compute_install_plan fs pdIn tdIn mode =
        .error (.fileNotFound (fs.resolve pdIn)) ↔
      fs.existsAt (fs.resolve pdIn) = false) ∧
    (compute_install_plan fs pdIn tdIn mode =
        .error (.notADirectory (fs.resolve pdIn)) ↔
      fs.existsAt (fs.resolve pdIn) = true ∧
        fs.isDirAt (fs.resolve pdIn) = false) ∧
    (compute_install_plan fs pdIn tdIn mode = .error .valueError ↔
      fs.existsAt (fs.resolve pdIn) = true ∧
        fs.isDirAt (fs.resolve pdIn) = true ∧
        (fs.resolve pdIn = [] ∨ leads (fs.resolve pdIn) (fs.resolve tdIn) = true)) ∧
    (∀ e, compute_install_plan fs pdIn tdIn mode = .error e →
      e = .fileNotFound (fs.resolve pdIn) ∨ e = .notADirectory (fs.resolve pdIn) ∨
        e = .valueError) := by
  cases hex : fs.existsAt (fs.resolve pdIn) with
  | false =>
    have hval : compute_install_plan fs pdIn tdIn mode =
        .error (.fileNotFound (fs.resolve pdIn)) := by
      simp [compute_install_plan, normalize_package_dir, hex, bind, Except.bind]
    refine ⟨by simp [hval], by simp [hval], by simp [hval], ?_⟩
    intro e he
    rw [hval] at he
    injection he with h2
    exact Or.inl h2.symm
  | true =>
    cases hdir : fs.isDirAt (fs.resolve pdIn) with
    | false =>
      have hval : compute_install_plan fs pdIn tdIn mode =
          .error (.notADirectory (fs.resolve pdIn)) := by
        simp [compute_install_plan, normalize_package_dir, hex, hdir, bind,
          Except.bind]
      refine ⟨by simp [hval, hex], by simp [hval, hex, hdir], by simp [hval, hdir],
        ?_⟩
      intro e he
      rw [hval] at he
      injection he with h2
      exact Or.inr (Or.inl h2.symm)
    | true =>
      by_cases hv : fs.resolve pdIn = [] ∨
          leads (fs.resolve pdIn) (fs.resolve tdIn) = true
      · have hval : compute_install_plan fs pdIn tdIn mode = .error .valueError := by
          rcases hv with h1 | h2
          · have hex' : fs.existsAt ([] : List String) = true := h1 ▸ hex
            have hdir' : fs.isDirAt ([] : List String) = true := h1 ▸ hdir
            simp [compute_install_plan, normalize_package_dir, normalize_target_dir,
              validate_install_directories, hex', hdir', h1, bind, Except.bind]
          · by_cases h1 : fs.resolve pdIn = []
            · have hex' : fs.existsAt ([] : List String) = true := h1 ▸ hex
              have hdir' : fs.isDirAt ([] : List String) = true := h1 ▸ hdir
              simp [compute_install_plan, normalize_package_dir,
                normalize_target_dir, validate_install_directories, hex', hdir',
                h1, bind, Except.bind]
            · simp [compute_install_plan, normalize_package_dir,
                normalize_target_dir, validate_install_directories, hex, hdir,
                h1, h2, bind, Except.bind]
        refine ⟨by simp [hval], by simp [hval, hdir], ?_, ?_⟩
        · simp [hval, hex, hdir]
          exact hv
        · intro e he
          rw [hval] at he
          injection he with h2
          exact Or.inr (Or.inr h2.symm)
      · push_neg at hv
        obtain ⟨h1, h2⟩ := hv
        have h2' : leads (fs.resolve pdIn) (fs.resolve tdIn) = false := by
          cases h : leads (fs.resolve pdIn) (fs.resolve tdIn)
          · rfl
          · exact absurd h h2
        have hval : compute_install_plan fs pdIn tdIn mode =
            .ok ⟨(fs.resolve pdIn).getLastD "", fs.resolve pdIn,
              fs.resolve tdIn,
              (planFiles fs (fs.resolve pdIn) (fs.resolve tdIn) mode
                (discover_files fs (fs.resolve pdIn))).1,
              (planFiles fs (fs.resolve pdIn) (fs.resolve tdIn) mode
                (discover_files fs (fs.resolve pdIn))).2⟩ := by
          simp [compute_install_plan, normalize_package_dir, normalize_target_dir,
            validate_install_directories, hex, hdir, h1, h2', bind, Except.bind,
            pure, Except.pure]
        refine ⟨by simp [hval], by simp [hval], ?_, ?_⟩
        · rw [hval]
          simp [hex, hdir, h1]
          exact h2'
        · intro e he
          rw [hval] at he
          cases he

/-- Witness for C9 at a concrete world: a missing package directory is
reported as not found. -/
theorem compute_install_plan_validation_witness :
    compute_install_plan fsW9 ["q"] ["t"] .abort = .error (.fileNotFound ["q"]) := by
  have h := compute_install_plan_validation fsW9 ["q"] ["t"] .abort
  exact h.1.mpr (by rfl)

/-! ### Registry and executor helper lemmas -/

theorem PackageEntry.from_to_dict (e : PackageEntry) :
    PackageEntry.from_dict e.to_dict = e := by
  have hs : ∀ l : List Symlink,
      l.map ((fun s : List String × List String => (⟨s.1, s.2⟩ : Symlink)) ∘
        (fun s : Symlink => (s.link_path, s.source_path))) = l := by
    intro l
    induction l with
    | nil => rfl
    | cons s rest ih => simp [ih]
  cases e with
  | mk name package_dir target_dir symlinks installed_at =>
    simp [PackageEntry.to_dict, PackageEntry.from_dict, List.map_map, hs]

theorem Registry.load_version_le (f : Option RegistryDict) (reg : Registry)
    (h : Registry.load f = .ok reg) : reg.version ≤ REGISTRY_VERSION := by
  cases f with
  | none =>
    simp only [Registry.load] at h
    injection h with h2
    subst h2
    exact le_refl _
  | some d =>
    cases hv : d.version with
    | none => simp [Registry.load, Registry.from_dict, hv] at h
    | some v =>
      by_cases hgt : v > REGISTRY_VERSION
      · simp [Registry.load, Registry.from_dict, hv, hgt] at h
      · cases hp : d.packages with
        | none => simp [Registry.load, Registry.from_dict, hv, hp, hgt] at h
        | some pkgs =>
          simp only [Registry.load, Registry.from_dict, hv, hp] at h
          rw [if_neg hgt] at h
          injection h with h2
          subst h2
          exact le_of_not_lt hgt

theorem Registry.load_to_dict (r : Registry) (h : r.version ≤ REGISTRY_VERSION) :
    Registry.load (some r.to_dict) = .ok r := by
  have hmap : ∀ l : List (String × PackageEntry),
      l.map ((fun q : String × PackageEntryDict =>
          (q.1, PackageEntry.from_dict q.2)) ∘
        (fun q : String × PackageEntry => (q.1, q.2.to_dict))) = l := by
    intro l
    induction l with
    | nil => rfl
    | cons q rest ih => simp [ih, PackageEntry.from_to_dict]
  simp only [Registry.load, Registry.to_dict, Registry.from_dict]
  rw [if_neg (not_lt.mpr h)]
  simp only [List.map_map, hmap]

theorem dfind_dinsert {α : Type} (l : List (String × α)) (k : String) (v : α) :
    dfind (dinsert l k v) k = some v := by
  induction l with
  | nil => simp [dinsert, dfind]
  | cons p rest ih =>
    by_cases h : p.1 = k
    · simp [dinsert, dfind, h]
    · simp only [dinsert, dfind, if_neg h]
      exact ih

theorem dfind_dinsert_ne {α : Type} (l : List (String × α)) (k k' : String)
    (v : α) (h : k ≠ k') : dfind (dinsert l k v) k' = dfind l k' := by
  induction l with
  | nil => simp [dinsert, dfind, h]
  | cons p rest ih =>
    by_cases hp : p.1 = k
    · simp only [dinsert, if_pos hp, dfind, h, if_false, hp]
    · simp only [dinsert, if_neg hp, dfind]
      by_cases hp' : p.1 = k'
      · rw [if_pos hp', if_pos hp']
      · rw [if_neg hp', if_neg hp']
        exact ih

/-- Characterization of the validation stage of the install executor. -/
theorem validate_install_spec (reg : Registry) (plan : InstallPlan)
    (mode : ConflictMode) :
    ((∃ e, validate_install reg plan mode = some e) ↔
      ((∃ entry, dfind reg.packages plan.package_name = some entry ∧
          entry.package_dir ≠ plan.package_dir) ∨
        (∃ c ∈ plan.conflicts, c.isDirectory = true) ∨
        (mode = .abort ∧ ∃ c ∈ plan.conflicts, c.isCorrectSymlink = false))) := by
  have hfilter : plan.conflicts.filter Conflict.isDirectory ≠ [] ↔
      ∃ c ∈ plan.conflicts, c.isDirectory = true := by
    rw [Ne, List.filter_eq_nil_iff]
    push_neg
    simp
  have hblock : plan.conflicts.filter (fun c => !c.isCorrectSymlink) ≠ [] ↔
      ∃ c ∈ plan.conflicts, c.isCorrectSymlink = false := by
    rw [Ne, List.filter_eq_nil_iff]
    push_neg
    simp
  have hnoclash : ∀ h : Option Err,
      (plan.conflicts.filter Conflict.isDirectory = []) →
      ((mode = ConflictMode.abort →
        plan.conflicts.filter (fun c => !c.isCorrectSymlink) = [])) →
      ¬((∃ c ∈ plan.conflicts, c.isDirectory = true) ∨
        (mode = .abort ∧ ∃ c ∈ plan.conflicts, c.isCorrectSymlink = false)) := by
    intro _ hdir hblk
    rintro (hd | ⟨hm, hb⟩)
    · exact absurd (hfilter.mpr hd) (by simp [hdir])
    · exact absurd (hblock.mpr hb) (by simp [hblk hm])
  cases hfind : dfind reg.packages plan.package_name with
  | some entry =>
    by_cases hne : entry.package_dir ≠ plan.package_dir
    · have hval : validate_install reg plan mode =
          some (.packageAlreadyInstalled plan.package_name entry.package_dir
            plan.package_dir) := by
        simp [validate_install, hfind, hne]
      rw [hval]
      constructor
      · intro
        exact Or.inl ⟨entry, rfl, hne⟩
      · intro
        exact ⟨_, rfl⟩
    · push_neg at hne
      by_cases hdir : plan.conflicts.filter Conflict.isDirectory = []
      · by_cases habort : mode = ConflictMode.abort
        · by_cases hblk : plan.conflicts.filter (fun c => !c.isCorrectSymlink) = []
          · have hval : validate_install reg plan mode = none := by
              simp [validate_install, hfind, hne, hdir, habort, hblk]
            rw [hval]
            constructor
            · rintro ⟨e, he⟩
              cases he
            · rintro (⟨entry', hfe, hne'⟩ | hrest)
              · injection hfe with h2
                subst h2
                exact absurd hne hne'
              · exact absurd hrest (hnoclash none hdir (fun _ => hblk))
          · have hval : validate_install reg plan mode =
                some (.conflictError
                  (plan.conflicts.filter (fun c => !c.isCorrectSymlink))) := by
              simp [validate_install, hfind, hne, hdir, habort, hblk]
            rw [hval]
            constructor
            · intro
              exact Or.inr (Or.inr ⟨habort, hblock.mp hblk⟩)
            · intro
              exact ⟨_, rfl⟩
        · have hval : validate_install reg plan mode = none := by
            simp [validate_install, hfind, hne, hdir, habort]
          rw [hval]
          constructor
          · rintro ⟨e, he⟩
            cases he
          · rintro (⟨entry', hfe, hne'⟩ | hrest)
            · injection hfe with h2
              subst h2
              exact absurd hne hne'
            · exact absurd hrest
                (hnoclash none hdir (fun hm => absurd hm habort))
      · have hval : validate_install reg plan mode =
            some (.conflictError (plan.conflicts.filter Conflict.isDirectory)) := by
          simp [validate_install, hfind, hne, hdir]
        rw [hval]
        constructor
        · intro
          exact Or.inr (Or.inl (hfilter.mp hdir))
        · intro
          exact ⟨_, rfl⟩
  | none =>
    by_cases hdir : plan.conflicts.filter Conflict.isDirectory = []
    · by_cases habort : mode = ConflictMode.abort
      · by_cases hblk : plan.conflicts.filter (fun c => !c.isCorrectSymlink) = []
        · have hval : validate_install reg plan mode = none := by
            simp [validate_install, hfind, hdir, habort, hblk]
          rw [hval]
          constructor
          · rintro ⟨e, he⟩
            cases he
          · rintro (⟨entry', hfe, -⟩ | hrest)
            · cases hfe
            · exact absurd hrest (hnoclash none hdir (fun _ => hblk))
        · have hval : validate_install reg plan mode =
              some (.conflictError
                (plan.conflicts.filter (fun c => !c.isCorrectSymlink))) := by
            simp [validate_install, hfind, hdir, habort, hblk]
          rw [hval]
          constructor
          · intro
            exact Or.inr (Or.inr ⟨habort, hblock.mp hblk⟩)
          · intro
            exact ⟨_, rfl⟩
      · have hval : validate_install reg plan mode = none := by
          simp [validate_install, hfind, hdir, habort]
        rw [hval]
        constructor
        · rintro ⟨e, he⟩
          cases he
        · rintro (⟨entry', hfe, -⟩ | hrest)
          · cases hfe
          · exact absurd hrest
              (hnoclash none hdir (fun hm => absurd hm habort))
    · have hval : validate_install reg plan mode =
          some (.conflictError (plan.conflicts.filter Conflict.isDirectory)) := by
        simp [validate_install, hfind, hdir]
      rw [hval]
      constructor
      · intro
        exact Or.inr (Or.inl (hfilter.mp hdir))
      · intro
        exact ⟨_, rfl⟩

/-- Counterexample for C3 as stated: with a `Directory` conflict and a `File`
conflict in the plan, the raised conflict error carries only the directory
conflicts, not the plan's conflict list. -/
theorem execute_install_dirlist_counterexample :
    (execute_install_plan ⟨[], none⟩ planC3 .force "T").2 =
      some (.conflictError [.directory ["t", "d"]]) ∧
    [Conflict.directory ["t", "d"]] ≠ planC3.conflicts := by
  constructor
  · rfl
  · decide

/-- C3 (amended): given a loadable registry, `execute_install_plan` raises
before performing any mutation exactly when the package name is already
registered from a different directory, or some conflict is a `Directory`
conflict (fatal under every policy; the error carries the list of directory
conflicts), or the policy is `abort` and a conflict other than
`CorrectSymlink` is present; otherwise the validation stage does not raise. -/
theorem execute_install_plan_validation_spec (w : World) (plan : InstallPlan)
    (mode : ConflictMode) (now : String) (reg : Registry)
    (hload : Registry.load w.registryFile = .ok reg) :
    ((∃ e, validate_install reg plan mode = some e) ↔
      ((∃ entry, dfind reg.packages plan.package_name = some entry ∧
          entry.package_dir ≠ plan.package_dir) ∨
        (∃ c ∈ plan.conflicts, c.isDirectory = true) ∨
        (mode = .abort ∧ ∃ c ∈ plan.conflicts, c.isCorrectSymlink = false))) ∧
    (∀ e, validate_install reg plan mode = some e →
      execute_install_plan w plan mode now = (w, some e)) ∧
    ((∀ entry, dfind reg.packages plan.package_name = some entry →
        entry.package_dir = plan.package_dir) →
      (∃ c ∈ plan.conflicts, c.isDirectory = true) →
      validate_install reg plan mode =
        some (.conflictError (plan.conflicts.filter Conflict.isDirectory))) := by
  refine ⟨validate_install_spec reg plan mode, ?_, ?_⟩
  · intro e he
    simp [execute_install_plan, hload, he]
  · intro hnc hd
    have hdir' : plan.conflicts.filter Conflict.isDirectory ≠ [] := by
      rw [Ne, List.filter_eq_nil_iff]
      push_neg
      obtain ⟨c, hc, hcd⟩ := hd
      exact ⟨c, hc, by simp [hcd]⟩
    cases hfind : dfind reg.packages plan.package_name with
    | none => simp [validate_install, hfind, hdir']
    | some entry =>
      have heq := hnc entry hfind
      simp [validate_install, hfind, heq, hdir']

/-- Witness for C3 (amended) at a concrete world. -/
theorem execute_install_plan_validation_spec_witness :
    validate_install regW3 planC3 .force =
      some (.conflictError [.directory ["t", "d"]]) := by
  have h := execute_install_plan_validation_spec ⟨[], none⟩ planC3 .force "T"
    regW3 (by rfl)
  exact h.2.2 (by intro entry he; cases he)
    ⟨.directory ["t", "d"], by decide, rfl⟩

/-- C4: after a successful `execute_install_plan`, the registry file binds the
package name to an entry whose link set is exactly `symlinks_to_create`
together with one `Symlink` reconstructed (with resolved absolute source)
from each `CorrectSymlink` conflict, replacing any prior binding of that
name. -/
theorem execute_install_plan_registry_entry (w : World) (plan : InstallPlan)
    (mode : ConflictMode) (now : String) (w' : World)
    (h : execute_install_plan w plan mode now = (w', none)) :
    ∃ reg entry, Registry.load w.registryFile = .ok reg ∧
      Registry.load w'.registryFile =
        .ok ⟨reg.version, dinsert reg.packages plan.package_name entry⟩ ∧
      dfind (dinsert reg.packages plan.package_name entry) plan.package_name =
        some entry ∧
      entry.symlinks = plan.symlinks_to_create ++
        plan.conflicts.filterMap (reconstructCorrect w'.fs) ∧
      entry.name = plan.package_name ∧ entry.package_dir = plan.package_dir ∧
      entry.target_dir = plan.target_dir ∧ entry.installed_at = now := by
  cases hload : Registry.load w.registryFile with
  | error e =>
    simp only [execute_install_plan, hload] at h
    have := congrArg Prod.snd h
    simp at this
  | ok reg =>
    cases hv : validate_install reg plan mode with
    | some e =>
      simp only [execute_install_plan, hload, hv] at h
      have := congrArg Prod.snd h
      simp at this
    | none =>
      cases hcr : (createAll w.fs plan.symlinks_to_create
          (decide (mode = ConflictMode.force))).2 with
      | some e =>
        simp only [execute_install_plan, hload, hv, hcr] at h
        have := congrArg Prod.snd h
        simp at this
      | none =>
        simp only [execute_install_plan, hload, hv, hcr] at h
        have hw' := congrArg Prod.fst h
        simp only [] at hw'
        refine ⟨reg, ⟨plan.package_name, plan.package_dir, plan.target_dir,
          plan.symlinks_to_create ++
            plan.conflicts.filterMap
              (reconstructCorrect (createAll w.fs plan.symlinks_to_create
                (decide (mode = ConflictMode.force))).1), now⟩,
          rfl, ?_, ?_, ?_, rfl, rfl, rfl, rfl⟩
        · rw [← hw']
          simp only []
          exact Registry.load_to_dict _
            (Registry.load_version_le w.registryFile reg hload)
        · exact dfind_dinsert _ _ _
        · rw [← hw']

/-- Witness for C4 at a concrete world. -/
theorem execute_install_plan_registry_entry_witness :
    ∃ reg entry,
      Registry.load (⟨[(["p"], .dir), (["p", "f"], .file)], none⟩ : World).registryFile =
        .ok reg ∧
      Registry.load (execute_install_plan
          ⟨[(["p"], .dir), (["p", "f"], .file)], none⟩
          ⟨"p", ["p"], ["t"], [⟨["t", "f"], ["p", "f"]⟩], []⟩ .abort "T").1.registryFile =
        .ok ⟨reg.version, dinsert reg.packages "p" entry⟩ ∧
      dfind (dinsert reg.packages "p" entry) "p" = some entry ∧
      entry.symlinks = [⟨["t", "f"], ["p", "f"]⟩] ++
        ([] : List Conflict).filterMap
          (reconstructCorrect (execute_install_plan
            ⟨[(["p"], .dir), (["p", "f"], .file)], none⟩
            ⟨"p", ["p"], ["t"], [⟨["t", "f"], ["p", "f"]⟩], []⟩ .abort "T").1.fs) ∧
      entry.name = "p" ∧ entry.package_dir = ["p"] ∧
      entry.target_dir = ["t"] ∧ entry.installed_at = "T" :=
  execute_install_plan_registry_entry
    ⟨[(["p"], .dir), (["p", "f"], .file)], none⟩
    ⟨"p", ["p"], ["t"], [⟨["t", "f"], ["p", "f"]⟩], []⟩ .abort "T"
    (execute_install_plan ⟨[(["p"], .dir), (["p", "f"], .file)], none⟩
      ⟨"p", ["p"], ["t"], [⟨["t", "f"], ["p", "f"]⟩], []⟩ .abort "T").1 (by rfl)

/-- C7: in `execute_install_plan` all validation happens before any mutation
and the registry is persisted only after every creation succeeded: any error
leaves the registry file unchanged, and a registry-load or validation error
leaves the whole world unchanged. -/
theorem execute_install_plan_atomicity (w : World) (plan : InstallPlan)
    (mode : ConflictMode) (now : String) :
    (∀ e, (execute_install_plan w plan mode now).2 = some e →
      (execute_install_plan w plan mode now).1.registryFile = w.registryFile) ∧
    (∀ e, Registry.load w.registryFile = .error e →
      execute_install_plan w plan mode now = (w, some e)) ∧
    (∀ reg e, Registry.load w.registryFile = .ok reg →
      validate_install reg plan mode = some e →
      execute_install_plan w plan mode now = (w, some e)) := by
  refine ⟨?_, ?_, ?_⟩
  · intro e he
    cases hload : Registry.load w.registryFile with
    | error e' => simp [execute_install_plan, hload]
    | ok reg =>
      cases hv : validate_install reg plan mode with
      | some e' => simp [execute_install_plan, hload, hv]
      | none =>
        cases hcr : (createAll w.fs plan.symlinks_to_create
            (decide (mode = ConflictMode.force))).2 with
        | some e' => simp [execute_install_plan, hload, hv, hcr]
        | none =>
          simp only [execute_install_plan, hload, hv, hcr] at he
          cases he
  · intro e hload
    simp [execute_install_plan, hload]
  · intro reg e hload hv
    simp [execute_install_plan, hload, hv]

/-- Witness for C7 at a concrete world: a stale plan whose creation loop hits
an existing file fails mid-loop and leaves the registry file unchanged. -/
theorem execute_install_plan_atomicity_witness :
    (execute_install_plan ⟨[(["t"], .dir), (["t", "f"], .file)], none⟩
      ⟨"p", ["p"], ["t"], [⟨["t", "f"], ["p", "f"]⟩], []⟩ .abort "T").1.registryFile =
      (⟨[(["t"], .dir), (["t", "f"], .file)], none⟩ : World).registryFile :=
  (execute_install_plan_atomicity ⟨[(["t"], .dir), (["t", "f"], .file)], none⟩
    ⟨"p", ["p"], ["t"], [⟨["t", "f"], ["p", "f"]⟩], []⟩ .abort "T").1
    (.fileExistsError ["t", "f"]) (by rfl)

/-! ### Path order and resolution infrastructure -/

theorem leads_refl (p : List String) : leads p p = true := by
  induction p with
  | nil => rfl
  | cons a as ih => simp [leads, ih]

theorem leads_append (q r : List String) : leads q (q ++ r) = true := by
  induction q with
  | nil => rfl
  | cons a as ih => simp [leads, ih]

theorem leads_iff (q p : List String) : leads q p = true ↔ ∃ r, p = q ++ r := by
  induction q generalizing p with
  | nil =>
    simp [leads]
  | cons a as ih =>
    cases p with
    | nil => simp [leads]
    | cons b bs =>
      simp only [leads]
      by_cases hab : a = b
      · subst hab
        rw [if_pos rfl, ih]
        constructor
        · rintro ⟨r, rfl⟩
          exact ⟨r, rfl⟩
        · rintro ⟨r, hr⟩
          injection hr with h1 h2
          exact ⟨r, h2⟩
      · rw [if_neg hab]
        constructor
        · intro h
          cases h
        · rintro ⟨r, hr⟩
          injection hr with h1 h2
          exact absurd h1.symm hab

theorem leads_trans {a b c : List String} (h1 : leads a b = true)
    (h2 : leads b c = true) : leads a c = true := by
  rw [leads_iff] at h1 h2 ⊢
  obtain ⟨r1, rfl⟩ := h1
  obtain ⟨r2, rfl⟩ := h2
  exact ⟨r1 ++ r2, by simp⟩

theorem leads_length {q p : List String} (h : leads q p = true) :
    q.length ≤ p.length := by
  rw [leads_iff] at h
  obtain ⟨r, rfl⟩ := h
  simp

theorem eq_append_drop_of_leads {q p : List String} (h : leads q p = true) :
    p = q ++ p.drop q.length := by
  rw [leads_iff] at h
  obtain ⟨r, rfl⟩ := h
  rw [List.drop_left]

theorem leads_append_left (c a b : List String) :
    leads (c ++ a) (c ++ b) = leads a b := by
  induction c with
  | nil => rfl
  | cons x xs ih => simp [leads, ih]

theorem dropLast_append_getLastD :
    ∀ (p : List String), p ≠ [] → p.dropLast ++ [p.getLastD ""] = p
  | [_], _ => rfl
  | a :: b :: rest, _ => by
    have ih := dropLast_append_getLastD (b :: rest) (by simp)
    show a :: ((b :: rest).dropLast ++ [(b :: rest).getLastD ""]) = a :: b :: rest
    rw [ih]

theorem take_dropLast (l : List String) (j : Nat) (h : j ≤ l.length - 1) :
    l.dropLast.take j = l.take j := by
  rw [List.dropLast_eq_take, List.take_take]
  congr 1
  omega

theorem commonLen_le_right : ∀ a b : List String, commonLen a b ≤ b.length
  | _, [] => by simp [commonLen]
  | [], _ :: _ => by simp [commonLen]
  | a :: as, b :: bs => by
    simp only [commonLen]
    by_cases hab : a = b
    · rw [if_pos hab]
      simpa using commonLen_le_right as bs
    · rw [if_neg hab]
      simp

theorem commonLen_le_left : ∀ a b : List String, commonLen a b ≤ a.length
  | _, [] => by simp [commonLen]
  | [], _ :: _ => by simp [commonLen]
  | a :: as, b :: bs => by
    simp only [commonLen]
    by_cases hab : a = b
    · rw [if_pos hab]
      simpa using commonLen_le_left as bs
    · rw [if_neg hab]
      simp

theorem take_commonLen : ∀ a b : List String,
    a.take (commonLen a b) = b.take (commonLen a b)
  | _, [] => by simp [commonLen]
  | [], _ :: _ => by simp [commonLen]
  | a :: as, b :: bs => by
    simp only [commonLen]
    by_cases hab : a = b
    · rw [if_pos hab]
      simp only [List.take_succ_cons, hab]
      rw [take_commonLen as bs]
    · rw [if_neg hab]
      simp

theorem resolveSteps_empty (fs : FS) (fuel : Nat) (base : List String)
    (h : fuel ≠ 0) : resolveSteps fs fuel base [] = base := by
  cases fuel with
  | zero => exact absurd rfl h
  | succ f => rfl

theorem resolveSteps_name_notsym (fs : FS) (fuel : Nat) (base : List String)
    (n : String) (rest : List Item)
    (h : notSymNode (fs.lookup (base ++ [n])) = true) :
    resolveSteps fs (fuel + 1) base (Item.name n :: rest) =
      resolveSteps fs fuel (base ++ [n]) rest := by
  show (match fs.lookup (base ++ [n]) with
    | some (.symlink t) =>
      if t.absolute then resolveSteps fs fuel [] (t.comps.map Item.name ++ rest)
      else resolveSteps fs fuel base
        (List.replicate t.ups Item.up ++ t.comps.map Item.name ++ rest)
    | _ => resolveSteps fs fuel (base ++ [n]) rest) =
    resolveSteps fs fuel (base ++ [n]) rest
  cases hl : fs.lookup (base ++ [n]) with
  | none => rfl
  | some node =>
    cases node with
    | file => rfl
    | dir => rfl
    | symlink t =>
      rw [hl] at h
      simp [notSymNode] at h

theorem resolveSteps_upStep (fs : FS) (fuel : Nat) (base : List String)
    (rest : List Item) :
    resolveSteps fs (fuel + 1) base (Item.up :: rest) =
      resolveSteps fs fuel base.dropLast rest := rfl

theorem resolveSteps_names (fs : FS) :
    ∀ (cs base : List String) (rest : List Item) (fuel : Nat),
      cs.length ≤ fuel →
      (∀ i, i < cs.length →
        notSymNode (fs.lookup (base ++ cs.take (i + 1))) = true) →
      resolveSteps fs fuel base (cs.map Item.name ++ rest) =
        resolveSteps fs (fuel - cs.length) (base ++ cs) rest := by
  intro cs
  induction cs with
  | nil =>
    intro base rest fuel _ _
    simp
  | cons c cs' ih =>
    intro base rest fuel hfuel hns
    cases fuel with
    | zero => simp at hfuel
    | succ f =>
      have h0 := hns 0 (by simp)
      simp only [List.take_succ_cons, List.take_zero] at h0
      have hf : cs'.length ≤ f := by simpa using hfuel
      have step : ∀ i, i < cs'.length →
          notSymNode (fs.lookup ((base ++ [c]) ++ cs'.take (i + 1))) = true := by
        intro i hi
        have h2 := hns (i + 1) (by simpa using Nat.succ_lt_succ hi)
        simp only [List.take_succ_cons] at h2
        rw [← List.append_cons]
        exact h2
      simp only [List.map_cons, List.cons_append]
      rw [resolveSteps_name_notsym fs f base c (cs'.map Item.name ++ rest) h0]
      rw [ih (base ++ [c]) rest f hf step]
      have hn : f + 1 - (c :: cs').length = f - cs'.length := by
        simp only [List.length_cons]
        omega
      rw [hn, ← List.append_cons]

theorem resolveSteps_ups (fs : FS) :
    ∀ (k fuel : Nat) (base : List String) (rest : List Item),
      k ≤ fuel →
      resolveSteps fs fuel base (List.replicate k Item.up ++ rest) =
        resolveSteps fs (fuel - k) (base.take (base.length - k)) rest := by
  intro k
  induction k with
  | zero =>
    intro fuel base rest _
    simp [List.take_length]
  | succ k ih =>
    intro fuel base rest hfuel
    cases fuel with
    | zero => simp at hfuel
    | succ f =>
      have hf : k ≤ f := by omega
      simp only [List.replicate_succ, List.cons_append]
      rw [resolveSteps_upStep]
      rw [ih f base.dropLast rest hf]
      have h1 : base.dropLast.take (base.dropLast.length - k) =
          base.take (base.length - (k + 1)) := by
        rw [List.dropLast_eq_take, List.take_take, List.length_take]
        congr 1
        omega
      rw [h1, Nat.succ_sub_succ]

theorem resolve_stable (fs : FS) (p : List String)
    (h : ∀ i, i < p.length → notSymNode (fs.lookup (p.take (i + 1))) = true) :
    fs.resolve p = p := by
  unfold FS.resolve FS.resolveItems
  have hfuel : p.length ≤ fuelFor fs (p.map Item.name) := by
    simp [fuelFor]
    omega
  have := resolveSteps_names fs p [] [] (fuelFor fs (p.map Item.name)) hfuel
    (by simpa using h)
  simp only [List.append_nil, List.nil_append] at this
  rw [this, resolveSteps_empty]
  simp [fuelFor]
  omega

theorem lresolve_stable (fs : FS) (p : List String) (hne : p ≠ [])
    (h : ∀ i, i < p.length - 1 → notSymNode (fs.lookup (p.take (i + 1))) = true) :
    fs.lresolve p = p := by
  cases p with
  | nil => exact absurd rfl hne
  | cons a as =>
    show fs.resolve (a :: as).dropLast ++ [(a :: as).getLastD ""] = a :: as
    rw [resolve_stable fs (a :: as).dropLast ?cond]
    · exact dropLast_append_getLastD (a :: as) (by simp)
    case cond =>
      intro i hi
      rw [List.length_dropLast] at hi
      rw [take_dropLast _ _ (by omega)]
      exact h i (by simpa using hi)

theorem resolveFrom_relative (fs : FS) (L S : List String) (_hL : L ≠ [])
    (hLs : ∀ i, i < L.length - 1 → notSymNode (fs.lookup (L.take (i + 1))) = true)
    (hSs : ∀ i, i < S.length → notSymNode (fs.lookup (S.take (i + 1))) = true) :
    fs.resolveFrom L.dropLast
      ⟨false, L.dropLast.length - commonLen S L.dropLast,
        S.drop (commonLen S L.dropLast)⟩ = S := by
  have hk : commonLen S L.dropLast ≤ L.dropLast.length :=
    commonLen_le_right S L.dropLast
  have hkS : commonLen S L.dropLast ≤ S.length := commonLen_le_left S L.dropLast
  have hcond1 : ∀ i, i < L.dropLast.length →
      notSymNode (fs.lookup (([] : List String) ++ L.dropLast.take (i + 1))) =
        true := by
    intro i hi
    rw [List.length_dropLast] at hi
    rw [List.nil_append, take_dropLast L (i + 1) (by omega)]
    exact hLs i (by omega)
  have hcond3 : ∀ i, i < (S.drop (commonLen S L.dropLast)).length →
      notSymNode (fs.lookup (S.take (commonLen S L.dropLast) ++
        (S.drop (commonLen S L.dropLast)).take (i + 1))) = true := by
    intro i hi
    rw [List.length_drop] at hi
    rw [← List.take_add]
    have harr : commonLen S L.dropLast + (i + 1) =
        (commonLen S L.dropLast + i) + 1 := by omega
    rw [harr]
    exact hSs (commonLen S L.dropLast + i) (by omega)
  have main : ∀ fuel,
      L.dropLast.length + (L.dropLast.length - commonLen S L.dropLast) +
        (S.length - commonLen S L.dropLast) < fuel →
      resolveSteps fs fuel []
        (L.dropLast.map Item.name ++
          (List.replicate (L.dropLast.length - commonLen S L.dropLast) Item.up ++
            (S.drop (commonLen S L.dropLast)).map Item.name)) = S := by
    intro fuel hfuel
    rw [resolveSteps_names fs L.dropLast [] _ fuel (by omega) hcond1]
    rw [List.nil_append]
    rw [resolveSteps_ups fs (L.dropLast.length - commonLen S L.dropLast) _
      L.dropLast _ (by omega)]
    have htk : L.dropLast.length -
        (L.dropLast.length - commonLen S L.dropLast) = commonLen S L.dropLast := by
      omega
    rw [htk, (take_commonLen S L.dropLast).symm]
    rw [show (S.drop (commonLen S L.dropLast)).map Item.name =
        (S.drop (commonLen S L.dropLast)).map Item.name ++ ([] : List Item) from
      (List.append_nil _).symm]
    rw [resolveSteps_names fs (S.drop (commonLen S L.dropLast))
      (S.take (commonLen S L.dropLast)) [] _ (by
        simp only [List.length_drop]
        omega) hcond3]
    rw [List.take_append_drop]
    apply resolveSteps_empty
    simp only [List.length_drop]
    omega
  unfold FS.resolveFrom FS.resolveItems
  rw [if_neg (by simp : ¬((false : Bool) = true))]
  rw [List.append_assoc]
  apply main
  simp only [fuelFor, List.length_append, List.length_map, List.length_replicate,
    List.length_drop]
  omega

/-! ### Filesystem mutation frame lemmas -/

theorem FS.lookup_eraseKey (fs : FS) (k q : List String) :
    (fs.eraseKey k).lookup q = if q = k then none else fs.lookup q := by
  induction fs with
  | nil => simp [FS.eraseKey, FS.lookup]
  | cons p rest ih =>
    obtain ⟨pk, pn⟩ := p
    by_cases hp : pk = k <;> by_cases hq : q = k <;> by_cases hpq : pk = q <;>
      simp_all [FS.eraseKey, FS.lookup]

theorem FS.lookup_insert (fs : FS) (k : List String) (n : Node)
    (q : List String) :
    (fs.insert k n).lookup q = if q = k then some n else fs.lookup q := by
  show (if k = q then some n else (fs.eraseKey k).lookup q) =
    if q = k then some n else fs.lookup q
  by_cases hq : q = k
  · rw [if_pos hq.symm, if_pos hq]
  · rw [if_neg (fun h => hq h.symm), if_neg hq, FS.lookup_eraseKey, if_neg hq]

theorem mkdirAux_frame (fs : FS) (base cs q : List String) :
    (mkdirAux fs base cs).lookup q = fs.lookup q ∨
    (fs.lookup q = none ∧ (mkdirAux fs base cs).lookup q = some .dir ∧
      ∃ i, i < cs.length ∧ q = base ++ cs.take (i + 1)) := by
  induction cs generalizing fs base with
  | nil => left; rfl
  | cons c rest ih =>
    have hstep : mkdirAux fs base (c :: rest) =
        mkdirAux (if (fs.lookup (base ++ [c])).isNone then
          fs.insert (base ++ [c]) .dir else fs) (base ++ [c]) rest := rfl
    rw [hstep]
    by_cases hnone : (fs.lookup (base ++ [c])).isNone = true
    · rw [if_pos hnone]
      rcases ih (fs.insert (base ++ [c]) .dir) (base ++ [c]) with h | ⟨h1, h2, i, hi, hq⟩
      · rw [h, FS.lookup_insert]
        by_cases hq : q = base ++ [c]
        · right
          refine ⟨?_, ?_, 0, by simp, by simpa using hq⟩
          · rw [hq]
            exact Option.isNone_iff_eq_none.mp hnone
          · rw [if_pos hq]
        · left
          rw [if_neg hq]
      · rw [FS.lookup_insert] at h1
        by_cases hq' : q = base ++ [c]
        · rw [if_pos hq'] at h1
          cases h1
        · rw [if_neg hq'] at h1
          right
          refine ⟨h1, h2, i + 1, by simpa using Nat.succ_lt_succ hi, ?_⟩
          rw [List.take_succ_cons, List.append_cons]
          exact hq
    · rw [if_neg hnone]
      rcases ih fs (base ++ [c]) with h | ⟨h1, h2, i, hi, hq⟩
      · left
        exact h
      · right
        refine ⟨h1, h2, i + 1, by simpa using Nat.succ_lt_succ hi, ?_⟩
        rw [List.take_succ_cons, List.append_cons]
        exact hq

/-! ### Uninstall lemmas -/

theorem parentsClean_eraseKey (fs : FS) (k p : List String)
    (h : parentsClean fs p) : parentsClean (fs.eraseKey k) p := by
  intro i hi
  rw [FS.lookup_eraseKey]
  by_cases hq : p.take (i + 1) = k
  · rw [if_pos hq]
    rfl
  · rw [if_neg hq]
    exact h i hi

theorem remove_symlink_ok {fs : FS} {s : Symlink} {fs' : FS}
    (h : remove_symlink fs s = .ok fs') :
    fs' = fs.eraseKey (fs.lresolve s.link_path) := by
  unfold remove_symlink at h
  split_ifs at h <;> cases h <;> rfl

theorem removeAll_keeps : ∀ (links : List Symlink) (fs : FS)
    (q : List String) (t : TargetPath),
    fs.lookup q = some (.symlink t) →
    (∀ s ∈ links, s.link_path ≠ [] ∧ parentsClean fs s.link_path ∧
      s.link_path ≠ q) →
    (removeAll fs links).1.lookup q = some (.symlink t) := by
  intro links
  induction links with
  | nil =>
    intro fs q t h _
    exact h
  | cons s rest ih =>
    intro fs q t h hconds
    show (match remove_symlink fs s with
      | .error e => (fs, some e)
      | .ok fs' => removeAll fs' rest).1.lookup q = some (.symlink t)
    cases hrs : remove_symlink fs s with
    | error e => exact h
    | ok fs' =>
      obtain ⟨hne, hclean, hnq⟩ := hconds s (List.mem_cons_self s rest)
      have hlres : fs.lresolve s.link_path = s.link_path :=
        lresolve_stable fs s.link_path hne hclean
      have hfs' : fs' = fs.eraseKey s.link_path := by
        rw [remove_symlink_ok hrs, hlres]
      apply ih
      · rw [hfs', FS.lookup_eraseKey, if_neg (fun hqq => hnq hqq.symm)]
        exact h
      · intro s' hs'
        obtain ⟨h1, h2, h3⟩ := hconds s' (List.mem_cons_of_mem s hs')
        exact ⟨h1, by rw [hfs']; exact parentsClean_eraseKey fs _ _ h2, h3⟩

theorem pruneUp_keeps (tdir : List String) : ∀ (fuel : Nat) (fs : FS)
    (d q : List String) (t : TargetPath),
    fs.lookup q = some (.symlink t) →
    (pruneUp tdir fuel fs d).lookup q = some (.symlink t) := by
  intro fuel
  induction fuel with
  | zero =>
    intro fs d q t h
    exact h
  | succ f ih =>
    intro fs d q t h
    show (if d = tdir ∨ leads tdir d = false then fs
      else if isEmptyDir fs d then pruneUp tdir f (fs.eraseKey d) d.dropLast
      else fs).lookup q = some (.symlink t)
    split_ifs with h1 h2
    · exact h
    · apply ih
      rw [FS.lookup_eraseKey]
      by_cases hq : q = d
      · subst hq
        have := (Bool.and_eq_true _ _).mp h2
        have hd : fs.lookup q = some Node.dir := of_decide_eq_true this.1
        rw [h] at hd
        cases hd
      · rw [if_neg hq]
        exact h
    · exact h

theorem remove_empty_directories_keeps (tdir : List String) :
    ∀ (lps : List (List String)) (fs : FS) (q : List String) (t : TargetPath),
    fs.lookup q = some (.symlink t) →
    (remove_empty_directories fs tdir lps).lookup q = some (.symlink t) := by
  intro lps
  induction lps with
  | nil =>
    intro fs q t h
    exact h
  | cons lp rest ih =>
    intro fs q t h
    show (remove_empty_directories
      (pruneUp tdir lp.length fs lp.dropLast) tdir rest).lookup q = _
    exact ih _ q t (pruneUp_keeps tdir lp.length fs lp.dropLast q t h)

theorem classifyLinks_spec (fs : FS) : ∀ links : List Symlink,
    (classifyLinks fs links).1 =
      links.filter (fun s => fs.existsNoFollow s.link_path && s.exists fs) ∧
    (classifyLinks fs links).2.1 =
      (links.filter (fun s => !fs.existsNoFollow s.link_path)).map
        Symlink.link_path ∧
    (classifyLinks fs links).2.2 =
      links.filter (fun s => fs.existsNoFollow s.link_path && !(s.exists fs)) := by
  intro links
  induction links with
  | nil => exact ⟨rfl, rfl, rfl⟩
  | cons s rest ih =>
    obtain ⟨ih1, ih2, ih3⟩ := ih
    cases hex : fs.existsNoFollow s.link_path with
    | false =>
      have hred : classifyLinks fs (s :: rest) =
          ((classifyLinks fs rest).1, s.link_path :: (classifyLinks fs rest).2.1,
            (classifyLinks fs rest).2.2) := by
        simp [classifyLinks, hex]
      rw [hred]
      refine ⟨?_, ?_, ?_⟩ <;> simp [List.filter, hex, ih1, ih2, ih3]
    | true =>
      cases hse : s.exists fs with
      | true =>
        have hred : classifyLinks fs (s :: rest) =
            (s :: (classifyLinks fs rest).1, (classifyLinks fs rest).2.1,
              (classifyLinks fs rest).2.2) := by
          simp [classifyLinks, hex, hse]
        rw [hred]
        refine ⟨?_, ?_, ?_⟩ <;> simp [List.filter, hex, hse, ih1, ih2, ih3]
      | false =>
        have hred : classifyLinks fs (s :: rest) =
            ((classifyLinks fs rest).1, (classifyLinks fs rest).2.1,
              s :: (classifyLinks fs rest).2.2) := by
          simp [classifyLinks, hex, hse]
        rw [hred]
        refine ⟨?_, ?_, ?_⟩ <;> simp [List.filter, hex, hse, ih1, ih2, ih3]

theorem dfind_none_iff {α : Type} (l : List (String × α)) (k : String) :
    dfind l k = none ↔ k ∉ l.map Prod.fst := by
  induction l with
  | nil => simp [dfind]
  | cons p rest ih =>
    simp only [dfind, List.map_cons, List.mem_cons]
    by_cases hp : p.1 = k
    · simp [hp]
    · rw [if_neg hp]
      constructor
      · intro h hmem
        rcases hmem with h1 | h2
        · exact hp h1.symm
        · exact (ih.mp h) h2
      · intro h
        exact ih.mpr (fun h2 => h (Or.inr h2))

theorem dfind_derase_self {α : Type} (l : List (String × α)) (k : String)
    (h : (l.map Prod.fst).Nodup) : dfind (derase l k) k = none := by
  induction l with
  | nil => rfl
  | cons p rest ih =>
    simp only [List.map_cons, List.nodup_cons] at h
    show dfind (if p.1 = k then rest else p :: derase rest k) k = none
    by_cases hp : p.1 = k
    · rw [if_pos hp]
      rw [dfind_none_iff, ← hp]
      exact h.1
    · rw [if_neg hp]
      show (if p.1 = k then some p.2 else dfind (derase rest k) k) = none
      rw [if_neg hp]
      exact ih h.2

/-- Executing an uninstall plan never touches a symlink entry outside the
plan's `symlinks_to_remove` set (removal unlinks only listed links; directory
pruning deletes only empty directories). -/
theorem execute_uninstall_keeps (w : World) (plan : UninstallPlan)
    (q : List String) (t : TargetPath)
    (h : w.fs.lookup q = some (.symlink t))
    (hc : ∀ s ∈ plan.symlinks_to_remove, s.link_path ≠ [] ∧
      parentsClean w.fs s.link_path ∧ s.link_path ≠ q) :
    (execute_uninstall_plan w plan).1.fs.lookup q = some (.symlink t) := by
  have hrm := removeAll_keeps plan.symlinks_to_remove w.fs q t h hc
  cases hsnd : (removeAll w.fs plan.symlinks_to_remove).2 with
  | some e =>
    have hval : execute_uninstall_plan w plan =
        (⟨(removeAll w.fs plan.symlinks_to_remove).1, w.registryFile⟩, some e) := by
      simp [execute_uninstall_plan, hsnd]
    rw [hval]
    exact hrm
  | none =>
    have hkeep2 := remove_empty_directories_keeps plan.target_dir
      (plan.symlinks_to_remove.map Symlink.link_path)
      (removeAll w.fs plan.symlinks_to_remove).1 q t hrm
    cases hload2 : Registry.load w.registryFile with
    | error e =>
      have hval : execute_uninstall_plan w plan =
          (⟨remove_empty_directories (removeAll w.fs plan.symlinks_to_remove).1
            plan.target_dir (plan.symlinks_to_remove.map Symlink.link_path),
            w.registryFile⟩, some e) := by
        simp [execute_uninstall_plan, hsnd, hload2]
      rw [hval]
      exact hkeep2
    | ok reg =>
      cases hfind : dfind reg.packages plan.package_name with
      | none =>
        have hval : execute_uninstall_plan w plan =
            (⟨remove_empty_directories (removeAll w.fs plan.symlinks_to_remove).1
              plan.target_dir (plan.symlinks_to_remove.map Symlink.link_path),
              w.registryFile⟩, some (.keyError plan.package_name)) := by
          simp [execute_uninstall_plan, hsnd, hload2, hfind]
        rw [hval]
        exact hkeep2
      | some e0 =>
        have hval : execute_uninstall_plan w plan =
            (⟨remove_empty_directories (removeAll w.fs plan.symlinks_to_remove).1
              plan.target_dir (plan.symlinks_to_remove.map Symlink.link_path),
              some (Registry.to_dict ⟨reg.version,
                derase reg.packages plan.package_name⟩)⟩, none) := by
          simp [execute_uninstall_plan, hsnd, hload2, hfind]
        rw [hval]
        exact hkeep2

/-- C6: given a loadable registry, `compute_uninstall_plan` fails with
`PackageNotFound` iff the name has no registry entry; otherwise it classifies
every recorded symlink into exactly one of `symlinks_to_remove` (present and
pointing to the recorded source), `missing_symlinks` (absent entirely) and
`modified_symlinks` (present but pointing elsewhere); and uninstall execution
only ever removes links in the `symlinks_to_remove` set. -/
theorem compute_uninstall_plan_spec (fs : FS) (regFile : Option RegistryDict)
    (name : String) (reg : Registry)
    (hload : Registry.load regFile = .ok reg) :
    (compute_uninstall_plan fs regFile name = .error (.packageNotFound name) ↔
      dfind reg.packages name = none) ∧
    (∀ entry, dfind reg.packages name = some entry →
      compute_uninstall_plan fs regFile name = .ok
        ⟨name, entry.target_dir,
          entry.symlinks.filter
            (fun s => fs.existsNoFollow s.link_path && s.exists fs),
          (entry.symlinks.filter
            (fun s => !fs.existsNoFollow s.link_path)).map Symlink.link_path,
          entry.symlinks.filter
            (fun s => fs.existsNoFollow s.link_path && !(s.exists fs))⟩) ∧
    (∀ entry, dfind reg.packages name = some entry →
      ∀ s ∈ entry.symlinks,
        (fs.existsNoFollow s.link_path = false ∧ s.link_path ∈
          (entry.symlinks.filter
            (fun s => !fs.existsNoFollow s.link_path)).map Symlink.link_path) ∨
        (fs.existsNoFollow s.link_path = true ∧ s.exists fs = true ∧ s ∈
          entry.symlinks.filter
            (fun s => fs.existsNoFollow s.link_path && s.exists fs)) ∨
        (fs.existsNoFollow s.link_path = true ∧ s.exists fs = false ∧ s ∈
          entry.symlinks.filter
            (fun s => fs.existsNoFollow s.link_path && !(s.exists fs)))) ∧
    (∀ (w : World) (plan : UninstallPlan) (q : List String) (t : TargetPath),
      w.fs.lookup q = some (.symlink t) →
      (∀ s ∈ plan.symlinks_to_remove, s.link_path ≠ [] ∧
        parentsClean w.fs s.link_path ∧ s.link_path ≠ q) →
      (execute_uninstall_plan w plan).1.fs.lookup q = some (.symlink t)) := by
  have hcover : ∀ entry : PackageEntry, ∀ s ∈ entry.symlinks,
      (fs.existsNoFollow s.link_path = false ∧ s.link_path ∈
        (entry.symlinks.filter
          (fun s => !fs.existsNoFollow s.link_path)).map Symlink.link_path) ∨
      (fs.existsNoFollow s.link_path = true ∧ s.exists fs = true ∧ s ∈
        entry.symlinks.filter
          (fun s => fs.existsNoFollow s.link_path && s.exists fs)) ∨
      (fs.existsNoFollow s.link_path = true ∧ s.exists fs = false ∧ s ∈
        entry.symlinks.filter
          (fun s => fs.existsNoFollow s.link_path && !(s.exists fs))) := by
    intro entry s hs
    cases hex : fs.existsNoFollow s.link_path with
    | false =>
      exact Or.inl ⟨rfl, List.mem_map.mpr
        ⟨s, List.mem_filter.mpr ⟨hs, by simp [hex]⟩, rfl⟩⟩
    | true =>
      cases hse : s.exists fs with
      | true =>
        exact Or.inr (Or.inl ⟨rfl, rfl,
          List.mem_filter.mpr ⟨hs, by simp [hex, hse]⟩⟩)
      | false =>
        exact Or.inr (Or.inr ⟨rfl, rfl,
          List.mem_filter.mpr ⟨hs, by simp [hex, hse]⟩⟩)
  cases hfind : dfind reg.packages name with
  | none =>
    have hval : compute_uninstall_plan fs regFile name =
        .error (.packageNotFound name) := by
      simp [compute_uninstall_plan, hload, hfind, bind, Except.bind]
    refine ⟨by simp [hval], ?_, ?_, execute_uninstall_keeps⟩
    · intro entry he
      cases he
    · intro entry he
      cases he
  | some entry0 =>
    obtain ⟨hc1, hc2, hc3⟩ := classifyLinks_spec fs entry0.symlinks
    have hval : compute_uninstall_plan fs regFile name = .ok
        ⟨name, entry0.target_dir, (classifyLinks fs entry0.symlinks).1,
          (classifyLinks fs entry0.symlinks).2.1,
          (classifyLinks fs entry0.symlinks).2.2⟩ := by
      simp [compute_uninstall_plan, hload, hfind, bind, Except.bind, pure,
        Except.pure]
    refine ⟨by simp [hval], ?_, ?_, execute_uninstall_keeps⟩
    · intro entry he
      injection he with h2
      subst h2
      rw [hval, hc1, hc2, hc3]
    · intro entry he
      injection he with h2
      subst h2
      exact hcover entry0

/-- Witness for C6 at a concrete world with one link of each kind. -/
theorem compute_uninstall_plan_spec_witness :
    compute_uninstall_plan fsU (some regU.to_dict) "pkg" = .ok
      ⟨"pkg", ["t"], [⟨["t", "a"], ["s", "a"]⟩], [["t", "b"]],
        [⟨["t", "c"], ["s", "c"]⟩]⟩ := by
  have h := compute_uninstall_plan_spec fsU (some regU.to_dict) "pkg" regU
    (by rfl)
  rw [h.2.1 entryU (by rfl)]
  rfl

/-- C10: `execute_uninstall_plan` deletes the package's registry entry and
persists the registry whenever the removal loop succeeds, regardless of the
plan's `missing_symlinks` and `modified_symlinks` sets — the package name is
no longer bound in the saved registry. -/
theorem execute_uninstall_plan_unregisters (w : World) (plan : UninstallPlan)
    (reg : Registry) (entry : PackageEntry)
    (hload : Registry.load w.registryFile = .ok reg)
    (hrm : (removeAll w.fs plan.symlinks_to_remove).2 = none)
    (hmem : dfind reg.packages plan.package_name = some entry) :
    (execute_uninstall_plan w plan).2 = none ∧
    (execute_uninstall_plan w plan).1.registryFile =
      some (Registry.to_dict
        ⟨reg.version, derase reg.packages plan.package_name⟩) ∧
    ((reg.packages.map Prod.fst).Nodup →
      dfind (derase reg.packages plan.package_name) plan.package_name =
        none) := by
  have hval : execute_uninstall_plan w plan =
      (⟨remove_empty_directories (removeAll w.fs plan.symlinks_to_remove).1
        plan.target_dir (plan.symlinks_to_remove.map Symlink.link_path),
        some (Registry.to_dict
          ⟨reg.version, derase reg.packages plan.package_name⟩)⟩, none) := by
    simp [execute_uninstall_plan, hrm, hload, hmem]
  refine ⟨by rw [hval], by rw [hval], ?_⟩
  intro hnd
  exact dfind_derase_self _ _ hnd

/-- Witness for C10 at a concrete world whose plan has non-empty missing and
modified sets. -/
theorem execute_uninstall_plan_unregisters_witness :
    (execute_uninstall_plan ⟨fsU, some regU.to_dict⟩ planU).2 = none ∧
    dfind (derase regU.packages "pkg") "pkg" = none := by
  have h := execute_uninstall_plan_unregisters ⟨fsU, some regU.to_dict⟩ planU
    regU entryU (by rfl) (by rfl) (by rfl)
  exact ⟨h.1, h.2.2 (by decide)⟩

/-- Counterexample for C8 as stated: the registry value with version 2 (and
no packages) saves to a dict that fails to load, so save-then-load is not the
identity on every registry value. -/
theorem registry_roundtrip_counterexample :
    Registry.load (some (Registry.to_dict ⟨2, []⟩)) =
      .error .registryVersion ∧
    Registry.load (some (Registry.to_dict ⟨2, []⟩)) ≠
      .ok (⟨2, []⟩ : Registry) := by
  constructor
  · rfl
  · intro h
    rw [show Registry.load (some (Registry.to_dict ⟨2, []⟩)) =
      Except.error Err.registryVersion from rfl] at h
    cases h

/-- C8 (amended): for every registry value whose version is at most the
supported version (all values obtainable from loading or fresh construction),
saving to a file and loading back yields an equal registry value; and loading
a dict whose version exceeds the supported version fails with a version error
independently of the packages key, i.e. before it is inspected. -/
theorem registry_roundtrip (r : Registry) (h : r.version ≤ REGISTRY_VERSION) :
    Registry.load (some r.to_dict) = .ok r ∧
    (∀ (v : Int) (pkgs pkgs' : Option (List (String × PackageEntryDict))),
      v > REGISTRY_VERSION →
      Registry.from_dict ⟨some v, pkgs⟩ = .error .registryVersion ∧
      Registry.from_dict ⟨some v, pkgs⟩ = Registry.from_dict ⟨some v, pkgs'⟩) := by
  refine ⟨Registry.load_to_dict r h, ?_⟩
  intro v pkgs pkgs' hv
  constructor
  · simp [Registry.from_dict, hv]
  · simp [Registry.from_dict, hv]

/-- Witness for C8 (amended) at a concrete registry value. -/
theorem registry_roundtrip_witness :
    Registry.load (some (Registry.to_dict ⟨1, []⟩)) = .ok (⟨1, []⟩ : Registry) :=
  (registry_roundtrip ⟨1, []⟩ (by decide)).1

/-! ### C5: idempotence of install -/

/-- Counterexample for C5 as stated: in `fsX` the first install (plan and
execution) succeeds, but the second install aborts with a conflict error, so
running install twice from the same package and target directory can error. -/
theorem install_twice_counterexample :
    compute_install_plan fsX pdX tdX .abort = .ok planX1 ∧
    (execute_install_plan ⟨fsX, none⟩ planX1 .abort "T1").2 = none ∧
    compute_install_plan wX1.fs pdX tdX .abort = .ok planX2 ∧
    (execute_install_plan wX1 planX2 .abort "T2").2 =
      some (.conflictError [.brokenSymlink
        (tdX ++ [".config", "nvim", "init.vim"])
        ⟨false, 2, ["dots", "shell", ".config", "nvim", "init.vim"]⟩]) :=
  ⟨rfl, rfl, rfl, rfl⟩

theorem insertBy_perm (x : List String) (l : List (List String)) :
    (insertBy x l).Perm (x :: l) := by
  induction l with
  | nil => exact List.Perm.refl _
  | cons y ys ih =>
    show (if pathLe x y then x :: y :: ys else y :: insertBy x ys).Perm _
    by_cases h : pathLe x y = true
    · rw [if_pos h]
    · rw [if_neg h]
      exact (List.Perm.cons y ih).trans (List.Perm.swap x y ys)

theorem sortBy_perm (l : List (List String)) : (sortBy l).Perm l := by
  induction l with
  | nil => exact List.Perm.refl _
  | cons x xs ih =>
    exact (insertBy_perm x (sortBy xs)).trans (List.Perm.cons x ih)

theorem mem_sortBy (x : List String) (l : List (List String)) :
    x ∈ sortBy l ↔ x ∈ l :=
  (sortBy_perm l).mem_iff

theorem sortBy_nodup (l : List (List String)) (h : l.Nodup) :
    (sortBy l).Nodup :=
  (sortBy_perm l).symm.nodup h

theorem dedupKeysAux_mem : ∀ (l seen : List (List String)) (x : List String),
    x ∈ dedupKeysAux seen l ↔ x ∈ l ∧ x ∉ seen := by
  intro l
  induction l with
  | nil =>
    intro seen x
    simp [dedupKeysAux]
  | cons k rest ih =>
    intro seen x
    show x ∈ (if k ∈ seen then dedupKeysAux seen rest
      else k :: dedupKeysAux (k :: seen) rest) ↔ _
    by_cases hk : k ∈ seen
    · rw [if_pos hk, ih]
      constructor
      · rintro ⟨h1, h2⟩
        exact ⟨List.mem_cons_of_mem k h1, h2⟩
      · rintro ⟨h1, h2⟩
        rcases List.mem_cons.mp h1 with rfl | h1'
        · exact absurd hk h2
        · exact ⟨h1', h2⟩
    · rw [if_neg hk]
      simp only [List.mem_cons, ih, List.mem_cons]
      constructor
      · rintro (rfl | ⟨h1, h2⟩)
        · exact ⟨Or.inl rfl, hk⟩
        · exact ⟨Or.inr h1, fun hs => h2 (Or.inr hs)⟩
      · rintro ⟨(rfl | h1), h2⟩
        · exact Or.inl rfl
        · by_cases hx : x = k
          · exact Or.inl hx
          · exact Or.inr ⟨h1, fun hs => hs.elim hx h2⟩

theorem dedupKeysAux_nodup : ∀ (l seen : List (List String)),
    (dedupKeysAux seen l).Nodup := by
  intro l
  induction l with
  | nil =>
    intro seen
    exact List.nodup_nil
  | cons k rest ih =>
    intro seen
    show (if k ∈ seen then dedupKeysAux seen rest
      else k :: dedupKeysAux (k :: seen) rest).Nodup
    by_cases hk : k ∈ seen
    · rw [if_pos hk]
      exact ih seen
    · rw [if_neg hk]
      refine List.nodup_cons.mpr ⟨?_, ih (k :: seen)⟩
      intro hmem
      exact ((dedupKeysAux_mem rest (k :: seen) k).mp hmem).2
        (List.mem_cons_self k seen)

theorem FS.keys_nodup (fs : FS) : fs.keys.Nodup :=
  dedupKeysAux_nodup (fs.map Prod.fst) []

theorem FS.lookup_mem : ∀ (fs : FS) (k : List String) (n : Node),
    fs.lookup k = some n → (k, n) ∈ fs := by
  intro fs
  induction fs with
  | nil =>
    intro k n h
    cases h
  | cons p rest ih =>
    intro k n h
    show (k, n) ∈ p :: rest
    by_cases hp : p.1 = k
    · rw [show FS.lookup (p :: rest) k =
        (if p.1 = k then some p.2 else FS.lookup rest k) from rfl,
        if_pos hp] at h
      injection h with h2
      exact List.mem_cons.mpr (Or.inl (by rw [← hp, ← h2]))
    · rw [show FS.lookup (p :: rest) k =
        (if p.1 = k then some p.2 else FS.lookup rest k) from rfl,
        if_neg hp] at h
      exact List.mem_cons_of_mem p (ih k n h)

theorem FS.lookup_append : ∀ (a b : FS) (k : List String),
    FS.lookup (a ++ b) k =
      match a.lookup k with
      | some n => some n
      | none => b.lookup k := by
  intro a
  induction a with
  | nil =>
    intro b k
    rfl
  | cons p rest ih =>
    intro b k
    show (if p.1 = k then some p.2 else FS.lookup (rest ++ b) k) = _
    by_cases hp : p.1 = k
    · rw [if_pos hp]
      show _ = (match (if p.1 = k then some p.2 else FS.lookup rest k) with
        | some n => some n
        | none => b.lookup k)
      rw [if_pos hp]
    · rw [if_neg hp, ih b k]
      show _ = (match (if p.1 = k then some p.2 else FS.lookup rest k) with
        | some n => some n
        | none => b.lookup k)
      rw [if_neg hp]

theorem FS.eraseKey_of_lookup_none : ∀ (fs : FS) (k : List String),
    fs.lookup k = none → fs.eraseKey k = fs := by
  intro fs
  induction fs with
  | nil =>
    intro k _
    rfl
  | cons p rest ih =>
    intro k h
    show (if p.1 = k then FS.eraseKey rest k else p :: FS.eraseKey rest k) = _
    by_cases hp : p.1 = k
    · rw [show FS.lookup (p :: rest) k =
        (if p.1 = k then some p.2 else FS.lookup rest k) from rfl,
        if_pos hp] at h
      cases h
    · rw [show FS.lookup (p :: rest) k =
        (if p.1 = k then some p.2 else FS.lookup rest k) from rfl,
        if_neg hp] at h
      rw [if_neg hp, ih k h]

theorem FS.insert_of_lookup_none (fs : FS) (k : List String) (n : Node)
    (h : fs.lookup k = none) : fs.insert k n = (k, n) :: fs := by
  show (k, n) :: fs.eraseKey k = (k, n) :: fs
  rw [FS.eraseKey_of_lookup_none fs k h]

theorem dinsert_dinsert {α : Type} (l : List (String × α)) (k : String)
    (v1 v2 : α) : dinsert (dinsert l k v1) k v2 = dinsert l k v2 := by
  induction l with
  | nil => simp [dinsert]
  | cons p rest ih =>
    by_cases hp : p.1 = k
    · simp [dinsert, hp]
    · simp only [dinsert, if_neg hp]
      rw [ih]

theorem pairwise_of_nodup_mem {α : Type} {R : α → α → Prop} :
    ∀ {l : List α}, l.Nodup → (∀ a ∈ l, ∀ b ∈ l, a ≠ b → R a b) →
    l.Pairwise R := by
  intro l
  induction l with
  | nil =>
    intro _ _
    exact List.Pairwise.nil
  | cons a rest ih =>
    intro hn h
    have hna := List.nodup_cons.mp hn
    refine List.Pairwise.cons ?_ (ih hna.2 ?_)
    · intro b hb
      refine h a (List.mem_cons_self a rest) b (List.mem_cons_of_mem a hb) ?_
      intro hab
      exact hna.1 (hab ▸ hb)
    · intro x hx y hy hxy
      exact h x (List.mem_cons_of_mem a hx) y (List.mem_cons_of_mem a hy) hxy

theorem notSym_of_dirOrNone {o : Option Node} (h : dirOrNone o = true) :
    notSymNode o = true := by
  cases o with
  | none => rfl
  | some n =>
    cases n with
    | file => rfl
    | dir => rfl
    | symlink t => exact absurd h (by simp [dirOrNone])

theorem installSane_parts (fs : FS) (pd td : List String)
    (h : installSane fs pd td = true) :
    pd ≠ [] ∧ fs.lookup pd = some Node.dir ∧ leads pd td = false ∧
    (∀ i, i < pd.length → dirOrNone (fs.lookup (pd.take (i + 1))) = true) ∧
    (∀ i, i < td.length → dirOrNone (fs.lookup (td.take (i + 1))) = true) ∧
    (∀ k n, fs.lookup k = some n → leads pd k = true → k ≠ pd →
      isSymNodeEntry n = false) ∧
    (∀ rel ∈ discover_files fs pd,
      rel ≠ [] ∧ leads pd (td ++ rel) = false ∧
      (∀ rel2 ∈ discover_files fs pd,
        leads (td ++ rel) (pd ++ rel2) = false) ∧
      (∀ j, j < rel.length - 1 →
        dirOrNone (fs.lookup ((td ++ rel).take (td.length + 1 + j))) = true) ∧
      check_conflict fs ⟨td ++ rel, pd ++ rel⟩ = none) := by
  simp only [installSane, Bool.and_eq_true, decide_eq_true_eq,
    Bool.not_eq_true', List.all_eq_true, List.mem_range] at h
  obtain ⟨⟨⟨⟨⟨⟨h1, h2⟩, h3⟩, h4⟩, h5⟩, h6⟩, h7⟩ := h
  refine ⟨h1, h2, h3, h4, h5, ?_, ?_⟩
  · intro k n hl hlead hne
    have hmem := FS.lookup_mem fs k n hl
    cases hsym : isSymNodeEntry n
    · rfl
    · exfalso
      have h8 := h6 (k, n) hmem
      simp [hlead, hne, hsym] at h8
  · intro rel hrel
    have := h7 rel hrel
    simp only [Bool.and_eq_true, decide_eq_true_eq, Bool.not_eq_true',
      List.all_eq_true, List.mem_range] at this
    obtain ⟨⟨⟨⟨g1, g2⟩, g3⟩, g4⟩, g5⟩ := this
    exact ⟨g1, g2, g3, g4, g5⟩

theorem nodeIsDir_eq {o : Option Node} : nodeIsDir o = true ↔ o = some Node.dir := by
  cases o with
  | none => simp [nodeIsDir]
  | some n =>
    cases n with
    | file => simp [nodeIsDir]
    | dir => simp [nodeIsDir]
    | symlink t => simp [nodeIsDir]

theorem discover_facts (fs : FS) (pd : List String) :
    ∀ rel ∈ discover_files fs pd,
      rel ≠ [] ∧
      (∃ n, fs.lookup (pd ++ rel) = some n ∧
        (n = .file ∨ isSymNodeEntry n = true)) ∧
      (∀ j, j < rel.length - 1 →
        fs.lookup ((pd ++ rel).take (pd.length + 1 + j)) = some .dir) := by
  intro rel hrel
  unfold discover_files at hrel
  rw [mem_sortBy] at hrel
  obtain ⟨p, hp, hdrop⟩ := List.mem_map.mp hrel
  have hpf := List.mem_filter.mp hp
  have hw := hpf.2
  simp only [walkLists, Bool.and_eq_true, decide_eq_true_eq,
    List.all_eq_true, List.mem_range] at hw
  obtain ⟨⟨⟨hlead, hne⟩, hint⟩, hleaf⟩ := hw
  have hpeq : p = pd ++ rel := by
    rw [← hdrop]
    exact eq_append_drop_of_leads hlead
  have hrelne : rel ≠ [] := by
    intro hcon
    rw [hcon, List.append_nil] at hpeq
    exact hne hpeq
  refine ⟨hrelne, ?_, ?_⟩
  · cases hlook : fs.lookup p with
    | none =>
      rw [hlook] at hleaf
      cases hleaf
    | some n =>
      refine ⟨n, by rw [← hpeq]; exact hlook, ?_⟩
      cases n with
      | file => exact Or.inl rfl
      | dir =>
        rw [hlook] at hleaf
        cases hleaf
      | symlink t => exact Or.inr rfl
  · intro j hj
    have hlen : p.length = pd.length + rel.length := by
      rw [hpeq, List.length_append]
    have := hint j (by omega)
    rw [← hpeq]
    exact nodeIsDir_eq.mp this

theorem discover_nodup (fs : FS) (pd : List String) :
    (discover_files fs pd).Nodup := by
  unfold discover_files
  apply sortBy_nodup
  apply List.Nodup.map_on
  · intro x hx y hy hxy
    have hwx := (List.mem_filter.mp hx).2
    have hwy := (List.mem_filter.mp hy).2
    simp only [walkLists, Bool.and_eq_true, decide_eq_true_eq] at hwx hwy
    have hx2 := eq_append_drop_of_leads hwx.1.1.1
    have hy2 := eq_append_drop_of_leads hwy.1.1.1
    rw [hx2, hy2, hxy]
  · exact (FS.keys_nodup fs).filter _

theorem length_lt_of_leads_ne {a b : List String} (h : leads a b = true)
    (hne : a ≠ b) : a.length < b.length := by
  have hle := leads_length h
  rcases Nat.lt_or_ge a.length b.length with h1 | h1
  · exact h1
  · exfalso
    have hb := eq_append_drop_of_leads h
    have : b.length = a.length := le_antisymm h1 hle
    rw [List.drop_eq_nil_of_le (by omega)] at hb
    rw [List.append_nil] at hb
    exact hne hb.symm

theorem leads_take (l : List String) (m : Nat) : leads (l.take m) l = true :=
  (leads_iff _ _).mpr ⟨l.drop m, (List.take_append_drop m l).symm⟩

theorem lookup_cons_none {k : List String} {n : Node} {fs : FS}
    {q : List String} (h : FS.lookup ((k, n) :: fs) q = none) :
    fs.lookup q = none ∧ k ≠ q := by
  have h' : (if k = q then some n else fs.lookup q) = none := h
  by_cases hk : k = q
  · rw [if_pos hk] at h'
    cases h'
  · rw [if_neg hk] at h'
    exact ⟨h', hk⟩

theorem mkdirAux_struct : ∀ (cs : List String) (fs : FS) (base : List String),
    ∃ newE : FS, mkdirAux fs base cs = newE ++ fs ∧
      ∀ kn ∈ newE, fs.lookup kn.1 = none ∧ kn.2 = Node.dir ∧
        ∃ i, i < cs.length ∧ kn.1 = base ++ cs.take (i + 1) := by
  intro cs
  induction cs with
  | nil =>
    intro fs base
    exact ⟨[], rfl, by intro kn h; cases h⟩
  | cons c rest ih =>
    intro fs base
    have hstep : mkdirAux fs base (c :: rest) =
        mkdirAux (if (fs.lookup (base ++ [c])).isNone then
          fs.insert (base ++ [c]) .dir else fs) (base ++ [c]) rest := rfl
    by_cases hnone : (fs.lookup (base ++ [c])).isNone = true
    · have hn : fs.lookup (base ++ [c]) = none :=
        Option.isNone_iff_eq_none.mp hnone
      have hins : fs.insert (base ++ [c]) Node.dir =
          (base ++ [c], Node.dir) :: fs := FS.insert_of_lookup_none fs _ _ hn
      obtain ⟨newE, heq, hprop⟩ :=
        ih (fs.insert (base ++ [c]) Node.dir) (base ++ [c])
      refine ⟨newE ++ [(base ++ [c], Node.dir)], ?_, ?_⟩
      · rw [hstep, if_pos hnone, heq, hins, List.append_assoc]
        rfl
      · intro kn hkn
        rcases List.mem_append.mp hkn with hmem | hmem
        · obtain ⟨hlook, hdir, i, hi, hkey⟩ := hprop kn hmem
          rw [hins] at hlook
          refine ⟨(lookup_cons_none hlook).1, hdir, i + 1, by simpa using hi, ?_⟩
          rw [hkey, List.append_assoc]
          simp [List.take_succ_cons]
        · have hkn' : kn = (base ++ [c], Node.dir) := by simpa using hmem
          subst hkn'
          exact ⟨hn, rfl, 0, by simp, by simp⟩
    · obtain ⟨newE, heq, hprop⟩ := ih fs (base ++ [c])
      refine ⟨newE, ?_, ?_⟩
      · rw [hstep, if_neg hnone]
        exact heq
      · intro kn hkn
        obtain ⟨hlook, hdir, i, hi, hkey⟩ := hprop kn hkn
        exact ⟨hlook, hdir, i + 1, by simpa using hi,
          by rw [hkey, List.append_assoc]; simp [List.take_succ_cons]⟩

theorem create_symlink_fresh (fs : FS) (s : Symlink) (force : Bool)
    (hL : s.link_path ≠ [])
    (hnone : fs.lookup s.link_path = none)
    (hpar : ∀ i, i < s.link_path.length - 1 →
      dirOrNone (fs.lookup (s.link_path.take (i + 1))) = true) :
    create_symlink fs s force =
      .ok ((mkdirAux fs [] s.link_path.dropLast).insert s.link_path
        (.symlink s.relative_source_path)) := by
  have hparN : ∀ i, i < s.link_path.length - 1 →
      notSymNode (fs.lookup (s.link_path.take (i + 1))) = true :=
    fun i hi => notSym_of_dirOrNone (hpar i hi)
  have hallN : ∀ i, i < s.link_path.length →
      notSymNode (fs.lookup (s.link_path.take (i + 1))) = true := by
    intro i hi
    by_cases hlt : i < s.link_path.length - 1
    · exact hparN i hlt
    · have hi1 : i + 1 = s.link_path.length := by omega
      rw [hi1, List.take_length, hnone]
      rfl
  have hres : fs.resolve s.link_path = s.link_path :=
    resolve_stable _ _ hallN
  have hlres : fs.lresolve s.link_path = s.link_path :=
    lresolve_stable _ _ hL hparN
  have hsl : fs.isSymlinkAt s.link_path = false := by
    unfold FS.isSymlinkAt FS.lookupEntry
    rw [hlres, hnone]
  have hex : s.exists fs = false := by
    simp [Symlink.exists, hsl]
  have hdir : fs.isDirAt s.link_path = false := by
    unfold FS.isDirAt
    rw [hres, hnone]
  have hexAt : fs.existsAt s.link_path = false := by
    unfold FS.existsAt
    rw [hres, hnone]
    rfl
  have hresd : fs.resolve s.link_path.dropLast = s.link_path.dropLast := by
    apply resolve_stable
    intro i hi
    rw [List.length_dropLast] at hi
    rw [take_dropLast _ _ (by omega)]
    exact hparN i (by omega)
  have hLpos : 1 ≤ s.link_path.length := List.length_pos.mpr hL
  have h2none : (mkdirAux fs [] s.link_path.dropLast).lookup s.link_path =
      none := by
    rcases mkdirAux_frame fs [] s.link_path.dropLast s.link_path with
      h | ⟨h1, h2, i, hi, hq⟩
    · rw [h]
      exact hnone
    · exfalso
      have hlen := congrArg List.length hq
      simp [List.length_take, List.length_dropLast] at hlen
      rw [List.length_dropLast] at hi
      omega
  have h2par : ∀ i, i < s.link_path.length - 1 →
      notSymNode ((mkdirAux fs [] s.link_path.dropLast).lookup
        (s.link_path.take (i + 1))) = true := by
    intro i hi
    rcases mkdirAux_frame fs [] s.link_path.dropLast (s.link_path.take (i + 1))
      with h | ⟨h1, h2, -⟩
    · rw [h]
      exact hparN i hi
    · rw [h2]
      rfl
  have h2lres : (mkdirAux fs [] s.link_path.dropLast).lresolve s.link_path =
      s.link_path := lresolve_stable _ _ hL h2par
  have h2nf : (mkdirAux fs [] s.link_path.dropLast).existsNoFollow
      s.link_path = false := by
    unfold FS.existsNoFollow FS.lookupEntry
    rw [h2lres, h2none]
    rfl
  simp [create_symlink, hex, hdir, hexAt, hsl, FS.mkdirParents, hresd,
    h2nf, h2lres]

theorem createAll_effect : ∀ (creates : List Symlink) (fs : FS) (force : Bool),
    (∀ s ∈ creates, s.link_path ≠ [] ∧ fs.lookup s.link_path = none ∧
      ∀ i, i < s.link_path.length - 1 →
        dirOrNone (fs.lookup (s.link_path.take (i + 1))) = true) →
    creates.Pairwise (fun a b => leads a.link_path b.link_path = false ∧
      leads b.link_path a.link_path = false) →
    (createAll fs creates force).2 = none ∧
    (∀ s ∈ creates, (createAll fs creates force).1.lookup s.link_path =
      some (.symlink s.relative_source_path)) ∧
    (∀ q, (∀ s ∈ creates, q ≠ s.link_path) →
      (createAll fs creates force).1.lookup q = fs.lookup q ∨
      (fs.lookup q = none ∧
        (createAll fs creates force).1.lookup q = some .dir ∧
        ∃ s ∈ creates, leads q s.link_path = true ∧ q ≠ s.link_path)) ∧
    (∃ newE, (createAll fs creates force).1 = newE ++ fs ∧
      ∀ kn ∈ newE, fs.lookup kn.1 = none ∧
        ∃ s ∈ creates, leads kn.1 s.link_path = true) := by
  intro creates
  induction creates with
  | nil =>
    intro fs force hgood hpw
    refine ⟨rfl, ?_, ?_, ?_⟩
    · intro s h
      cases h
    · intro q hq
      left
      rfl
    · refine ⟨[], rfl, ?_⟩
      intro kn h
      cases h
  | cons s rest ih =>
    intro fs force hgood hpw
    obtain ⟨hL, hnone, hpar⟩ := hgood s (List.mem_cons_self s rest)
    have hpw' := List.pairwise_cons.mp hpw
    have hcs := create_symlink_fresh fs s force hL hnone hpar
    have hstep : createAll fs (s :: rest) force =
        createAll ((mkdirAux fs [] s.link_path.dropLast).insert s.link_path
          (.symlink s.relative_source_path)) rest force := by
      show (match create_symlink fs s force with
        | .error e => (fs, some e)
        | .ok fs' => createAll fs' rest force) = _
      rw [hcs]
    have hLpos : 1 ≤ s.link_path.length := List.length_pos.mpr hL
    have hmlookL : (mkdirAux fs [] s.link_path.dropLast).lookup s.link_path =
        none := by
      rcases mkdirAux_frame fs [] s.link_path.dropLast s.link_path with
        h | ⟨h1, h2, i, hi, hq⟩
      · rw [h]
        exact hnone
      · exfalso
        have hlen := congrArg List.length hq
        simp [List.length_take, List.length_dropLast] at hlen
        rw [List.length_dropLast] at hi
        omega
    have f1 : ((mkdirAux fs [] s.link_path.dropLast).insert s.link_path
        (.symlink s.relative_source_path)).lookup s.link_path =
        some (.symlink s.relative_source_path) := by
      rw [FS.lookup_insert, if_pos rfl]
    have f2 : ∀ q, q ≠ s.link_path →
        ((mkdirAux fs [] s.link_path.dropLast).insert s.link_path
          (.symlink s.relative_source_path)).lookup q = fs.lookup q ∨
        (fs.lookup q = none ∧
          ((mkdirAux fs [] s.link_path.dropLast).insert s.link_path
            (.symlink s.relative_source_path)).lookup q = some .dir ∧
          leads q s.link_path = true) := by
      intro q hq
      rw [FS.lookup_insert, if_neg hq]
      rcases mkdirAux_frame fs [] s.link_path.dropLast q with
        h | ⟨h1, h2, i, hi, hqe⟩
      · left
        exact h
      · right
        refine ⟨h1, h2, ?_⟩
        rw [List.nil_append] at hqe
        rw [List.length_dropLast] at hi
        rw [hqe, take_dropLast _ _ (by omega)]
        exact leads_take s.link_path (i + 1)
    have hgood' : ∀ s' ∈ rest,
        s'.link_path ≠ [] ∧
        ((mkdirAux fs [] s.link_path.dropLast).insert s.link_path
          (.symlink s.relative_source_path)).lookup s'.link_path = none ∧
        ∀ i, i < s'.link_path.length - 1 →
          dirOrNone (((mkdirAux fs [] s.link_path.dropLast).insert s.link_path
            (.symlink s.relative_source_path)).lookup
            (s'.link_path.take (i + 1))) = true := by
      intro s' hs'
      obtain ⟨hL', hnone', hpar'⟩ := hgood s' (List.mem_cons_of_mem s hs')
      have hneq : s'.link_path ≠ s.link_path := by
        intro heq
        have := (hpw'.1 s' hs').1
        rw [heq] at this
        rw [leads_refl] at this
        cases this
      refine ⟨hL', ?_, ?_⟩
      · rcases f2 s'.link_path hneq with h | ⟨h1, h2, hlead⟩
        · rw [h]
          exact hnone'
        · exfalso
          have := (hpw'.1 s' hs').2
          rw [hlead] at this
          cases this
      · intro i hi
        have hqneq : s'.link_path.take (i + 1) ≠ s.link_path := by
          intro heq
          have hld : leads s.link_path s'.link_path = true := by
            rw [← heq]
            exact leads_take s'.link_path (i + 1)
          have := (hpw'.1 s' hs').1
          rw [hld] at this
          cases this
        rcases f2 (s'.link_path.take (i + 1)) hqneq with h | ⟨h1, h2, hlead⟩
        · rw [h]
          exact hpar' i hi
        · rw [h2]
          rfl
    obtain ⟨ihA, ihB, ihC, ihD⟩ := ih
      ((mkdirAux fs [] s.link_path.dropLast).insert s.link_path
        (.symlink s.relative_source_path)) force hgood' hpw'.2
    have hneqAll : ∀ s' ∈ rest, s.link_path ≠ s'.link_path := by
      intro s' hs' heq
      have := (hpw'.1 s' hs').1
      rw [heq] at this
      rw [leads_refl] at this
      cases this
    rw [hstep]
    refine ⟨ihA, ?_, ?_, ?_⟩
    · intro s' hs'
      rcases List.mem_cons.mp hs' with rfl | hmem
      · rcases ihC s'.link_path hneqAll with h | ⟨h1, h2, -⟩
        · rw [h]
          exact f1
        · rw [f1] at h1
          cases h1
      · exact ihB s' hmem
    · intro q hq
      have hqL : q ≠ s.link_path := hq s (List.mem_cons_self s rest)
      have hqrest : ∀ s' ∈ rest, q ≠ s'.link_path :=
        fun s' hs' => hq s' (List.mem_cons_of_mem s hs')
      rcases ihC q hqrest with h | ⟨h1, h2, s', hs', hlead, hne⟩
      · rcases f2 q hqL with h' | ⟨h1', h2', hlead'⟩
        · left
          rw [h, h']
        · right
          exact ⟨h1', by rw [h]; exact h2',
            s, List.mem_cons_self s rest, hlead', hqL⟩
      · have hfs : fs.lookup q = none := by
          rcases f2 q hqL with h' | ⟨h1', h2', -⟩
          · rw [← h']
            exact h1
          · rw [h2'] at h1
            cases h1
        right
        exact ⟨hfs, h2, s', List.mem_cons_of_mem s hs', hlead, hne⟩
    · obtain ⟨newE2, heq2, hprop2⟩ := ihD
      obtain ⟨newM, heqM, hpropM⟩ := mkdirAux_struct s.link_path.dropLast fs []
      have hfssEq : (mkdirAux fs [] s.link_path.dropLast).insert s.link_path
          (.symlink s.relative_source_path) =
          ((s.link_path, Node.symlink s.relative_source_path) :: newM) ++ fs := by
        rw [FS.insert_of_lookup_none _ _ _ hmlookL, heqM]
        rfl
      refine ⟨newE2 ++ ((s.link_path, Node.symlink s.relative_source_path) ::
        newM), ?_, ?_⟩
      · rw [heq2, hfssEq, ← List.append_assoc]
      · intro kn hkn
        rcases List.mem_append.mp hkn with hmem | hmem
        · obtain ⟨hlook, s', hs', hlead⟩ := hprop2 kn hmem
          rw [hfssEq, FS.lookup_append] at hlook
          refine ⟨?_, s', List.mem_cons_of_mem s hs', hlead⟩
          cases h' : FS.lookup ((s.link_path,
              Node.symlink s.relative_source_path) :: newM) kn.1 with
          | none =>
            rw [h'] at hlook
            exact hlook
          | some n =>
            rw [h'] at hlook
            cases hlook
        · rcases List.mem_cons.mp hmem with rfl | hmem'
          · exact ⟨hnone, s, List.mem_cons_self s rest, leads_refl s.link_path⟩
          · obtain ⟨hlook, -, i, hi, hkey⟩ := hpropM kn hmem'
            refine ⟨hlook, s, List.mem_cons_self s rest, ?_⟩
            rw [List.nil_append] at hkey
            rw [List.length_dropLast] at hi
            rw [hkey, take_dropLast _ _ (by omega)]
            exact leads_take s.link_path (i + 1)

theorem take_append_of_le {a b : List String} {m : Nat} (h : m ≤ a.length) :
    (a ++ b).take m = a.take m := by
  rw [List.take_append_eq_append_take, Nat.sub_eq_zero_of_le h,
    List.take_zero, List.append_nil]

theorem planFiles_all_none (fs : FS) (pd td : List String)
    (mode : ConflictMode) : ∀ files : List (List String),
    (∀ rel ∈ files, check_conflict fs ⟨td ++ rel, pd ++ rel⟩ = none) →
    planFiles fs pd td mode files =
      (files.map (fun rel => ⟨td ++ rel, pd ++ rel⟩), []) := by
  intro files
  induction files with
  | nil =>
    intro h
    rfl
  | cons rel rest ih =>
    intro h
    have hc := h rel (List.mem_cons_self rel rest)
    have hr := ih (fun r hmem => h r (List.mem_cons_of_mem rel hmem))
    simp only [planFiles, hc, hr, List.map_cons]

theorem planFiles_all_correct (fs : FS) (pd td : List String)
    (mode : ConflictMode) (g : List String → TargetPath) :
    ∀ files : List (List String),
    (∀ rel ∈ files, check_conflict fs ⟨td ++ rel, pd ++ rel⟩ =
      some (.correctSymlink (td ++ rel) (g rel))) →
    planFiles fs pd td mode files =
      ([], files.map (fun rel => Conflict.correctSymlink (td ++ rel) (g rel))) := by
  intro files
  induction files with
  | nil =>
    intro h
    rfl
  | cons rel rest ih =>
    intro h
    have hc := h rel (List.mem_cons_self rel rest)
    have hr := ih (fun r hmem => h r (List.mem_cons_of_mem rel hmem))
    simp only [planFiles, hc, hr, List.map_cons, Conflict.isCorrectSymlink,
      if_pos rfl]
    rw [if_pos trivial]

theorem filterMap_eq_map_of_some {α β : Type} (f : α → Option β) (g : α → β) :
    ∀ l : List α, (∀ x ∈ l, f x = some (g x)) → l.filterMap f = l.map g := by
  intro l
  induction l with
  | nil =>
    intro h
    rfl
  | cons a rest ih =>
    intro h
    rw [List.filterMap_cons, h a (List.mem_cons_self a rest),
      ih (fun x hx => h x (List.mem_cons_of_mem a hx)), List.map_cons]

theorem map2_dinsert_eq_of_eq {α β γ : Type} (f : α → β) (g : β → γ)
    (v1 v2 : α) (h : g (f v1) = g (f v2)) :
    ∀ (l : List (String × α)) (k : String),
    ((dinsert l k v1).map (fun p => (p.1, f p.2))).map
      (fun p => (p.1, g p.2)) =
    ((dinsert l k v2).map (fun p => (p.1, f p.2))).map
      (fun p => (p.1, g p.2)) := by
  intro l
  induction l with
  | nil =>
    intro k
    simp [dinsert, h]
  | cons p rest ih =>
    intro k
    obtain ⟨k', v'⟩ := p
    by_cases hp : k' = k
    · simp [dinsert, hp, h]
    · simp only [dinsert, if_neg hp, List.map_cons]
      rw [ih k]

theorem lookup_none_of_no_conflict (fs : FS) (s : Symlink)
    (hL : s.link_path ≠ [])
    (hpar : ∀ i, i < s.link_path.length - 1 →
      dirOrNone (fs.lookup (s.link_path.take (i + 1))) = true)
    (hcc : check_conflict fs s = none) : fs.lookup s.link_path = none := by
  have hlres : fs.lresolve s.link_path = s.link_path :=
    lresolve_stable _ _ hL (fun i hi => notSym_of_dirOrNone (hpar i hi))
  simp only [check_conflict] at hcc
  by_cases hc1 : fs.existsAt s.link_path = false ∧
      fs.isSymlinkAt s.link_path = false
  · have hnotsym : notSymNode (fs.lookup s.link_path) = true := by
      have h2 := hc1.2
      unfold FS.isSymlinkAt FS.lookupEntry at h2
      rw [hlres] at h2
      cases hlook : fs.lookup s.link_path with
      | none => rfl
      | some n =>
        cases n with
        | file => rfl
        | dir => rfl
        | symlink t =>
          rw [hlook] at h2
          cases h2
    have hresL : fs.resolve s.link_path = s.link_path := by
      apply resolve_stable
      intro i hi
      by_cases hlt : i < s.link_path.length - 1
      · exact notSym_of_dirOrNone (hpar i hlt)
      · have hi1 : i + 1 = s.link_path.length := by omega
        rw [hi1, List.take_length]
        exact hnotsym
    have h1 := hc1.1
    unfold FS.existsAt at h1
    rw [hresL] at h1
    cases hlook : fs.lookup s.link_path with
    | none => rfl
    | some n =>
      rw [hlook] at h1
      cases h1
  · exfalso
    rw [if_neg hc1] at hcc
    split_ifs at hcc <;> cases hcc

theorem compute_install_plan_build (fs : FS) (pd td : List String)
    (mode : ConflictMode)
    (hres : fs.resolve pd = pd) (hrtd : fs.resolve td = td)
    (hex : fs.existsAt pd = true) (hdir : fs.isDirAt pd = true)
    (hpd0 : pd ≠ []) (hnl : leads pd td = false) :
    compute_install_plan fs pd td mode = .ok ⟨pd.getLastD "", pd, td,
      (planFiles fs pd td mode (discover_files fs pd)).1,
      (planFiles fs pd td mode (discover_files fs pd)).2⟩ := by
  have hnorm : normalize_package_dir fs pd = .ok pd := by
    simp [normalize_package_dir, hres, hex, hdir]
  have hval : validate_install_directories pd td = .ok () := by
    simp [validate_install_directories, hpd0, hnl]
  simp only [compute_install_plan, hnorm, normalize_target_dir, hrtd, hval,
    bind, Except.bind, pure, Except.pure]

theorem execute_install_plan_build (w : World) (plan : InstallPlan)
    (mode : ConflictMode) (now : String) (reg : Registry)
    (hload : Registry.load w.registryFile = .ok reg)
    (hval : validate_install reg plan mode = none)
    (hca : (createAll w.fs plan.symlinks_to_create
      (decide (mode = ConflictMode.force))).2 = none) :
    execute_install_plan w plan mode now =
      (⟨(createAll w.fs plan.symlinks_to_create
          (decide (mode = ConflictMode.force))).1,
        some (Registry.to_dict ⟨reg.version,
          dinsert reg.packages plan.package_name
            ⟨plan.package_name, plan.package_dir, plan.target_dir,
              plan.symlinks_to_create ++ plan.conflicts.filterMap
                (reconstructCorrect (createAll w.fs plan.symlinks_to_create
                  (decide (mode = ConflictMode.force))).1),
              now⟩⟩)⟩, none) := by
  simp only [execute_install_plan, hload, hval, hca]

theorem all_congr_mem {α : Type} {l : List α} {f g : α → Bool}
    (h : ∀ x ∈ l, f x = g x) : l.all f = l.all g := by
  induction l with
  | nil => rfl
  | cons a rest ih =>
    show (f a && rest.all f) = (g a && rest.all g)
    rw [h a (List.mem_cons_self a rest),
      ih (fun x hx => h x (List.mem_cons_of_mem a hx))]

theorem leads_take_of_leads {q p : List String} (h : leads q p = true)
    (m : Nat) (hm : q.length ≤ m) : leads q (p.take m) = true := by
  rw [leads_iff] at h ⊢
  obtain ⟨r, rfl⟩ := h
  refine ⟨r.take (m - q.length), ?_⟩
  rw [List.take_append_eq_append_take, List.take_of_length_le hm]

theorem FS.lookup_none_not_mem : ∀ (fs : FS) (x : List String),
    fs.lookup x = none → x ∉ fs.map Prod.fst := by
  intro fs
  induction fs with
  | nil =>
    intro x h hmem
    cases hmem
  | cons p rest ih =>
    intro x h hmem
    obtain ⟨pk, pn⟩ := p
    obtain ⟨hn, hne⟩ := lookup_cons_none h
    rcases List.mem_cons.mp hmem with heq | hmem'
    · exact hne heq.symm
    · exact ih x hn hmem'

theorem dedupKeysAux_congr : ∀ (l seen1 seen2 : List (List String)),
    (∀ x ∈ l, (x ∈ seen1 ↔ x ∈ seen2)) →
    dedupKeysAux seen1 l = dedupKeysAux seen2 l := by
  intro l
  induction l with
  | nil =>
    intro seen1 seen2 h
    rfl
  | cons k rest ih =>
    intro seen1 seen2 h
    show (if k ∈ seen1 then dedupKeysAux seen1 rest
      else k :: dedupKeysAux (k :: seen1) rest) =
      (if k ∈ seen2 then dedupKeysAux seen2 rest
      else k :: dedupKeysAux (k :: seen2) rest)
    by_cases hk : k ∈ seen1
    · rw [if_pos hk, if_pos ((h k (List.mem_cons_self k rest)).mp hk),
        ih seen1 seen2 (fun x hx => h x (List.mem_cons_of_mem k hx))]
    · rw [if_neg hk,
        if_neg (fun hc => hk ((h k (List.mem_cons_self k rest)).mpr hc))]
      congr 1
      apply ih
      intro x hx
      constructor
      · intro hmem
        rcases List.mem_cons.mp hmem with heq | hmem'
        · exact heq ▸ List.mem_cons_self x _
        · exact List.mem_cons_of_mem k
            ((h x (List.mem_cons_of_mem k hx)).mp hmem')
      · intro hmem
        rcases List.mem_cons.mp hmem with heq | hmem'
        · exact heq ▸ List.mem_cons_self x _
        · exact List.mem_cons_of_mem k
            ((h x (List.mem_cons_of_mem k hx)).mpr hmem')

theorem dedupKeysAux_append : ∀ (A B seen : List (List String)),
    ∃ extra, dedupKeysAux seen (A ++ B) =
      dedupKeysAux seen A ++ dedupKeysAux (extra ++ seen) B ∧
      ∀ x ∈ extra, x ∈ A := by
  intro A
  induction A with
  | nil =>
    intro B seen
    exact ⟨[], rfl, by intro x h; cases h⟩
  | cons k A' ih =>
    intro B seen
    by_cases hk : k ∈ seen
    · obtain ⟨extra, heq, hsub⟩ := ih B seen
      refine ⟨extra, ?_, fun x hx => List.mem_cons_of_mem k (hsub x hx)⟩
      show (if k ∈ seen then dedupKeysAux seen (A' ++ B)
        else k :: dedupKeysAux (k :: seen) (A' ++ B)) = _
      rw [if_pos hk, heq]
      congr 1
      show _ = (if k ∈ seen then dedupKeysAux seen A'
        else k :: dedupKeysAux (k :: seen) A')
      rw [if_pos hk]
    · obtain ⟨extra, heq, hsub⟩ := ih B (k :: seen)
      refine ⟨extra ++ [k], ?_, ?_⟩
      · show (if k ∈ seen then dedupKeysAux seen (A' ++ B)
          else k :: dedupKeysAux (k :: seen) (A' ++ B)) = _
        rw [if_neg hk, heq]
        have hassoc : extra ++ k :: seen = (extra ++ [k]) ++ seen := by
          rw [List.append_assoc]
          rfl
        rw [hassoc]
        show _ = (if k ∈ seen then dedupKeysAux seen A'
          else k :: dedupKeysAux (k :: seen) A') ++ _
        rw [if_neg hk]
        rfl
      · intro x hx
        rcases List.mem_append.mp hx with hmem | hmem
        · exact List.mem_cons_of_mem k (hsub x hmem)
        · have : x = k := by simpa using hmem
          exact this ▸ List.mem_cons_self k A'

theorem walkLists_extend (newE fs : FS) (pd : List String)
    (hout : ∀ kn ∈ newE, leads pd kn.1 = false)
    (hnosym : ∀ k n, fs.lookup k = some n → leads pd k = true → k ≠ pd →
      isSymNodeEntry n = false) :
    ∀ x, walkLists (newE ++ fs) pd x = walkLists fs pd x := by
  have hlq : ∀ q, leads pd q = true →
      FS.lookup (newE ++ fs) q = fs.lookup q := by
    intro q hq
    rw [FS.lookup_append]
    cases h' : newE.lookup q with
    | none => rfl
    | some n =>
      exfalso
      have := hout (q, n) (FS.lookup_mem newE q n h')
      rw [hq] at this
      cases this
  intro x
  by_cases hpd : leads pd x = true
  · by_cases hxpd : x = pd
    · simp [walkLists, hxpd]
    · simp only [walkLists]
      congr 1
      · congr 1
        apply all_congr_mem
        intro j hj
        rw [hlq (x.take (pd.length + 1 + j))
          (leads_take_of_leads hpd _ (by omega))]
      · rw [hlq x hpd]
        cases hlook : fs.lookup x with
        | none => rfl
        | some n =>
          cases n with
          | file => rfl
          | dir => rfl
          | symlink t =>
            exfalso
            have := hnosym x (.symlink t) hlook hpd hxpd
            cases this
  · have hpd' : leads pd x = false := by
      cases h' : leads pd x
      · rfl
      · exact absurd h' hpd
    simp [walkLists, hpd']

theorem discover_extend (newE fs : FS) (pd : List String)
    (hfresh : ∀ kn ∈ newE, fs.lookup kn.1 = none)
    (hout : ∀ kn ∈ newE, leads pd kn.1 = false)
    (hnosym : ∀ k n, fs.lookup k = some n → leads pd k = true → k ≠ pd →
      isSymNodeEntry n = false) :
    discover_files (newE ++ fs) pd = discover_files fs pd := by
  unfold discover_files
  congr 1
  congr 1
  have hmapapp : (newE ++ fs).map Prod.fst = newE.map Prod.fst ++ fs.map Prod.fst :=
    List.map_append _ _ _
  have hdisj : ∀ x ∈ fs.map Prod.fst, x ∉ newE.map Prod.fst := by
    intro x hx hmem
    obtain ⟨kn, hkn, hfst⟩ := List.mem_map.mp hmem
    have hn := hfresh kn hkn
    rw [hfst] at hn
    exact FS.lookup_none_not_mem fs x hn hx
  obtain ⟨extra, heq, hextra⟩ :=
    dedupKeysAux_append (newE.map Prod.fst) (fs.map Prod.fst) []
  show ((newE ++ fs : FS).keys).filter (walkLists (newE ++ fs) pd) =
    (fs.keys).filter (walkLists fs pd)
  unfold FS.keys
  rw [hmapapp, heq, List.filter_append]
  have hleft : (dedupKeysAux [] (newE.map Prod.fst)).filter
      (walkLists (newE ++ fs) pd) = [] := by
    rw [List.filter_eq_nil]
    intro x hx
    have hxA : x ∈ newE.map Prod.fst := ((dedupKeysAux_mem _ _ _).mp hx).1
    obtain ⟨kn, hkn, hfst⟩ := List.mem_map.mp hxA
    have hl := hout kn hkn
    rw [hfst] at hl
    simp [walkLists, hl]
  have hseen : dedupKeysAux (extra ++ []) (fs.map Prod.fst) =
      dedupKeysAux [] (fs.map Prod.fst) := by
    apply dedupKeysAux_congr
    intro x hx
    rw [List.append_nil]
    constructor
    · intro hmem
      exact absurd (hextra x hmem) (hdisj x hx)
    · intro hmem
      cases hmem
  rw [hleft, hseen, List.nil_append]
  apply List.filter_congr
  intro x hx
  exact walkLists_extend newE fs pd hout hnosym x

theorem discover_antichain (fs : FS) (pd : List String) :
    ∀ rel1 ∈ discover_files fs pd, ∀ rel2 ∈ discover_files fs pd,
      rel1 ≠ rel2 → leads rel1 rel2 = false := by
  intro rel1 h1 rel2 h2 hne
  cases hlt : leads rel1 rel2 with
  | false => rfl
  | true =>
    exfalso
    obtain ⟨hne1, ⟨n1, hlook1, hkind1⟩, -⟩ := discover_facts fs pd rel1 h1
    obtain ⟨-, -, hint2⟩ := discover_facts fs pd rel2 h2
    have hlen1 : 1 ≤ rel1.length := by
      cases rel1 with
      | nil => exact absurd rfl hne1
      | cons a as => simp
    have hlt' : rel1.length < rel2.length := length_lt_of_leads_ne hlt hne
    have hdir := hint2 (rel1.length - 1) (by omega)
    have hidx : pd.length + 1 + (rel1.length - 1) = pd.length + rel1.length := by
      omega
    rw [hidx] at hdir
    have htake : (pd ++ rel2).take (pd.length + rel1.length) = pd ++ rel1 := by
      rw [List.take_append]
      congr 1
      have hb := eq_append_drop_of_leads hlt
      rw [hb]
      exact List.take_left rel1 _
    rw [htake, hlook1] at hdir
    injection hdir with h3
    rcases hkind1 with rfl | hsym
    · cases h3
    · rw [h3] at hsym
      simp [isSymNodeEntry] at hsym

/-- C5 (amended): under decidable sanity conditions on the starting world —
`installSane`, a loadable registry file, and any prior registry entry for the
package name pointing at the same package directory — installing a package
twice in a row succeeds both times: both plans compute, both executions raise
no error, the second run leaves the filesystem exactly as the first run left
it, and the registry file differs at most in the recorded `installed_at`
timestamp.  (Unconditional idempotence is refuted by
the separate counterexample: a symlinked ancestor of the target makes the
second run classify the created links as broken and abort.) -/
theorem install_idempotent (fs₀ : FS) (regFile : Option RegistryDict)
    (pd td : List String) (mode : ConflictMode) (now₁ now₂ : String)
    (reg₀ : Registry)
    (hload : Registry.load regFile = .ok reg₀)
    (hname : ∀ entry, dfind reg₀.packages (pd.getLastD "") = some entry →
      entry.package_dir = pd)
    (hsane : installSane fs₀ pd td = true) :
    ∃ plan₁ w₁ plan₂ w₂,
      compute_install_plan fs₀ pd td mode = .ok plan₁ ∧
      execute_install_plan ⟨fs₀, regFile⟩ plan₁ mode now₁ = (w₁, none) ∧
      compute_install_plan w₁.fs pd td mode = .ok plan₂ ∧
      execute_install_plan w₁ plan₂ mode now₂ = (w₂, none) ∧
      w₂.fs = w₁.fs ∧
      scrubFile w₂.registryFile = scrubFile w₁.registryFile := by
  obtain ⟨hpd0, hpdDir, hnlpd, hpdPre, htdPre, hnosym0, hper⟩ :=
    installSane_parts fs₀ pd td hsane
  have hFfacts := discover_facts fs₀ pd
  have hFnd := discover_nodup fs₀ pd
  have hFac := discover_antichain fs₀ pd
  have hpdPreN : ∀ i, i < pd.length →
      notSymNode (fs₀.lookup (pd.take (i + 1))) = true :=
    fun i hi => notSym_of_dirOrNone (hpdPre i hi)
  have htdPreN : ∀ i, i < td.length →
      notSymNode (fs₀.lookup (td.take (i + 1))) = true :=
    fun i hi => notSym_of_dirOrNone (htdPre i hi)
  have hres0pd : fs₀.resolve pd = pd := resolve_stable _ _ hpdPreN
  have hres0td : fs₀.resolve td = td := resolve_stable _ _ htdPreN
  have hex0 : fs₀.existsAt pd = true := by
    unfold FS.existsAt
    rw [hres0pd, hpdDir]
    rfl
  have hdir0 : fs₀.isDirAt pd = true := by
    unfold FS.isDirAt
    rw [hres0pd, hpdDir]
  have hccnone : ∀ rel ∈ discover_files fs₀ pd,
      check_conflict fs₀ ⟨td ++ rel, pd ++ rel⟩ = none :=
    fun rel hrel => (hper rel hrel).2.2.2.2
  have hcomp1 : compute_install_plan fs₀ pd td mode = .ok
      ⟨pd.getLastD "", pd, td,
        (discover_files fs₀ pd).map
          (fun rel => (⟨td ++ rel, pd ++ rel⟩ : Symlink)), []⟩ := by
    rw [compute_install_plan_build fs₀ pd td mode hres0pd hres0td hex0 hdir0
      hpd0 hnlpd, planFiles_all_none fs₀ pd td mode _ hccnone]
  have hLne : ∀ rel ∈ discover_files fs₀ pd, td ++ rel ≠ ([] : List String) := by
    intro rel hrel h
    rcases List.append_eq_nil.mp h with ⟨-, h2⟩
    exact (hper rel hrel).1 h2
  have hLpar0 : ∀ rel ∈ discover_files fs₀ pd, ∀ i,
      i < (td ++ rel).length - 1 →
      dirOrNone (fs₀.lookup ((td ++ rel).take (i + 1))) = true := by
    intro rel hrel i hi
    rw [List.length_append] at hi
    by_cases hlt : i < td.length
    · rw [take_append_of_le (by omega)]
      exact htdPre i hlt
    · have hj := (hper rel hrel).2.2.2.1 (i - td.length) (by omega)
      rw [show td.length + 1 + (i - td.length) = i + 1 from by omega] at hj
      exact hj
  have hLnone : ∀ rel ∈ discover_files fs₀ pd,
      fs₀.lookup (td ++ rel) = none := by
    intro rel hrel
    exact lookup_none_of_no_conflict fs₀ ⟨td ++ rel, pd ++ rel⟩
      (hLne rel hrel) (hLpar0 rel hrel) (hccnone rel hrel)
  have hcreatesNd : ((discover_files fs₀ pd).map
      (fun rel => (⟨td ++ rel, pd ++ rel⟩ : Symlink))).Nodup := by
    apply List.Nodup.map_on
    · intro x hx y hy hxy
      have hl : td ++ x = td ++ y := congrArg Symlink.link_path hxy
      exact List.append_cancel_left hl
    · exact hFnd
  have hpwC : ((discover_files fs₀ pd).map
      (fun rel => (⟨td ++ rel, pd ++ rel⟩ : Symlink))).Pairwise
      (fun a b => leads a.link_path b.link_path = false ∧
        leads b.link_path a.link_path = false) := by
    apply pairwise_of_nodup_mem hcreatesNd
    intro a ha b hb hab
    obtain ⟨r1, hr1, rfl⟩ := List.mem_map.mp ha
    obtain ⟨r2, hr2, rfl⟩ := List.mem_map.mp hb
    have hrne : r1 ≠ r2 := fun h => hab (by rw [h])
    constructor
    · show leads (td ++ r1) (td ++ r2) = false
      rw [leads_append_left]
      exact hFac r1 hr1 r2 hr2 hrne
    · show leads (td ++ r2) (td ++ r1) = false
      rw [leads_append_left]
      exact hFac r2 hr2 r1 hr1 (fun h => hrne h.symm)
  obtain ⟨hcaErr, hcaLinks, hcaFrame, newE, hcaStruct, hcaNew⟩ :=
    createAll_effect ((discover_files fs₀ pd).map
        (fun rel => (⟨td ++ rel, pd ++ rel⟩ : Symlink))) fs₀
      (decide (mode = ConflictMode.force))
      (by
        intro s hs
        obtain ⟨rel, hrel, rfl⟩ := List.mem_map.mp hs
        exact ⟨hLne rel hrel, hLnone rel hrel, hLpar0 rel hrel⟩)
      hpwC
  have hExcl1 : ∀ q, leads q pd = true →
      ∀ s ∈ (discover_files fs₀ pd).map
        (fun rel => (⟨td ++ rel, pd ++ rel⟩ : Symlink)), q ≠ s.link_path := by
    intro q hq s hs heq
    obtain ⟨rel, hrel, rfl⟩ := List.mem_map.mp hs
    have heq' : q = td ++ rel := heq
    subst heq'
    have h1 : leads (td ++ rel) (pd ++ rel) = true :=
      leads_trans hq ((leads_iff pd (pd ++ rel)).mpr ⟨rel, rfl⟩)
    have h2 := (hper rel hrel).2.2.1 rel hrel
    rw [h1] at h2
    cases h2
  have hExcl2 : ∀ q, leads pd q = true →
      ∀ s ∈ (discover_files fs₀ pd).map
        (fun rel => (⟨td ++ rel, pd ++ rel⟩ : Symlink)), q ≠ s.link_path := by
    intro q hq s hs heq
    obtain ⟨rel, hrel, rfl⟩ := List.mem_map.mp hs
    have heq' : q = td ++ rel := heq
    subst heq'
    have h2 := (hper rel hrel).2.1
    rw [hq] at h2
    cases h2
  have hExcl3 : ∀ rel ∈ discover_files fs₀ pd, ∀ i,
      i < (td ++ rel).length - 1 →
      ∀ s ∈ (discover_files fs₀ pd).map
        (fun rel => (⟨td ++ rel, pd ++ rel⟩ : Symlink)),
      (td ++ rel).take (i + 1) ≠ s.link_path := by
    intro rel hrel i hi s hs heq
    obtain ⟨rel', hrel', rfl⟩ := List.mem_map.mp hs
    have heq' : (td ++ rel).take (i + 1) = td ++ rel' := heq
    have hlq : leads (td ++ rel') (td ++ rel) = true := by
      rw [← heq']
      exact leads_take (td ++ rel) (i + 1)
    have hLpos : 1 ≤ (td ++ rel).length := List.length_pos.mpr (hLne rel hrel)
    have hrne : rel' ≠ rel := by
      intro h
      subst h
      have hlen := congrArg List.length heq'
      rw [List.length_take, Nat.min_eq_left (by omega)] at hlen
      omega
    rw [leads_append_left] at hlq
    have hcon := hFac rel' hrel' rel hrel hrne
    rw [hlq] at hcon
    cases hcon
  have hExclTd : ∀ i, i < td.length →
      ∀ s ∈ (discover_files fs₀ pd).map
        (fun rel => (⟨td ++ rel, pd ++ rel⟩ : Symlink)),
      td.take (i + 1) ≠ s.link_path := by
    intro i hi s hs heq
    obtain ⟨rel, hrel, rfl⟩ := List.mem_map.mp hs
    have heq' : td.take (i + 1) = td ++ rel := heq
    have hlen := congrArg List.length heq'
    rw [List.length_take, List.length_append] at hlen
    have hr1 : 1 ≤ rel.length := List.length_pos.mpr ((hper rel hrel).1)
    have hmin : min (i + 1) td.length ≤ td.length := Nat.min_le_right _ _
    omega
  have hK_pdpre : ∀ i, i < pd.length → notSymNode
      (((createAll fs₀ ((discover_files fs₀ pd).map
        (fun rel => (⟨td ++ rel, pd ++ rel⟩ : Symlink)))
        (decide (mode = ConflictMode.force))).1).lookup
        (pd.take (i + 1))) = true := by
    intro i hi
    rcases hcaFrame (pd.take (i + 1)) (hExcl1 _ (leads_take pd (i + 1))) with
      h | ⟨-, h2, -⟩
    · rw [h]
      exact hpdPreN i hi
    · rw [h2]
      rfl
  have hres1pd : ((createAll fs₀ ((discover_files fs₀ pd).map
      (fun rel => (⟨td ++ rel, pd ++ rel⟩ : Symlink)))
      (decide (mode = ConflictMode.force))).1).resolve pd = pd :=
    resolve_stable _ _ hK_pdpre
  have hpdlook1 : ((createAll fs₀ ((discover_files fs₀ pd).map
      (fun rel => (⟨td ++ rel, pd ++ rel⟩ : Symlink)))
      (decide (mode = ConflictMode.force))).1).lookup pd = some Node.dir := by
    rcases hcaFrame pd (hExcl1 pd (leads_refl pd)) with h | ⟨-, h2, -⟩
    · rw [h]
      exact hpdDir
    · exact h2
  have hex1 : ((createAll fs₀ ((discover_files fs₀ pd).map
      (fun rel => (⟨td ++ rel, pd ++ rel⟩ : Symlink)))
      (decide (mode = ConflictMode.force))).1).existsAt pd = true := by
    unfold FS.existsAt
    rw [hres1pd, hpdlook1]
    rfl
  have hdir1 : ((createAll fs₀ ((discover_files fs₀ pd).map
      (fun rel => (⟨td ++ rel, pd ++ rel⟩ : Symlink)))
      (decide (mode = ConflictMode.force))).1).isDirAt pd = true := by
    unfold FS.isDirAt
    rw [hres1pd, hpdlook1]
  have hK_tdpre : ∀ i, i < td.length → notSymNode
      (((createAll fs₀ ((discover_files fs₀ pd).map
        (fun rel => (⟨td ++ rel, pd ++ rel⟩ : Symlink)))
        (decide (mode = ConflictMode.force))).1).lookup
        (td.take (i + 1))) = true := by
    intro i hi
    rcases hcaFrame (td.take (i + 1)) (hExclTd i hi) with h | ⟨-, h2, -⟩
    · rw [h]
      exact htdPreN i hi
    · rw [h2]
      rfl
  have hres1td : ((createAll fs₀ ((discover_files fs₀ pd).map
      (fun rel => (⟨td ++ rel, pd ++ rel⟩ : Symlink)))
      (decide (mode = ConflictMode.force))).1).resolve td = td :=
    resolve_stable _ _ hK_tdpre
  have hK_Spre : ∀ rel ∈ discover_files fs₀ pd, ∀ i, i < (pd ++ rel).length →
      notSymNode (((createAll fs₀ ((discover_files fs₀ pd).map
        (fun rel => (⟨td ++ rel, pd ++ rel⟩ : Symlink)))
        (decide (mode = ConflictMode.force))).1).lookup
        ((pd ++ rel).take (i + 1))) = true := by
    intro rel hrel i hi
    have hnotlink : ∀ s ∈ (discover_files fs₀ pd).map
        (fun rel => (⟨td ++ rel, pd ++ rel⟩ : Symlink)),
        (pd ++ rel).take (i + 1) ≠ s.link_path := by
      by_cases hle : i + 1 ≤ pd.length
      · rw [take_append_of_le hle]
        exact hExcl1 _ (leads_take pd (i + 1))
      · have hqe : (pd ++ rel).take (i + 1) =
            pd ++ rel.take (i + 1 - pd.length) := by
          rw [List.take_append_eq_append_take,
            List.take_of_length_le (by omega)]
        rw [hqe]
        exact hExcl2 _ ((leads_iff _ _).mpr ⟨rel.take (i + 1 - pd.length), rfl⟩)
    rcases hcaFrame ((pd ++ rel).take (i + 1)) hnotlink with h | ⟨-, h2, -⟩
    · rw [h]
      rw [List.length_append] at hi
      have hr1 : 1 ≤ rel.length := List.length_pos.mpr (hFfacts rel hrel).1
      by_cases h1 : i < pd.length
      · rw [take_append_of_le (by omega)]
        exact hpdPreN i h1
      · by_cases h2' : i < pd.length + rel.length - 1
        · have hj := (hFfacts rel hrel).2.2 (i - pd.length) (by omega)
          rw [show pd.length + 1 + (i - pd.length) = i + 1 from by omega] at hj
          rw [hj]
          rfl
        · have hlast : i + 1 = (pd ++ rel).length := by
            rw [List.length_append]
            omega
          rw [hlast, List.take_length]
          obtain ⟨-, ⟨n, hlook, hkind⟩, -⟩ := hFfacts rel hrel
          rw [hlook]
          rcases hkind with rfl | hsym
          · rfl
          · exfalso
            have hSpd : leads pd (pd ++ rel) = true :=
              (leads_iff _ _).mpr ⟨rel, rfl⟩
            have hSne : pd ++ rel ≠ pd := by
              intro h
              have hlen := congrArg List.length h
              rw [List.length_append] at hlen
              omega
            have hns := hnosym0 (pd ++ rel) n hlook hSpd hSne
            rw [hsym] at hns
            cases hns
    · rw [h2]
      rfl
  have hres1S : ∀ rel ∈ discover_files fs₀ pd,
      ((createAll fs₀ ((discover_files fs₀ pd).map
        (fun rel => (⟨td ++ rel, pd ++ rel⟩ : Symlink)))
        (decide (mode = ConflictMode.force))).1).resolve (pd ++ rel) =
        pd ++ rel :=
    fun rel hrel => resolve_stable _ _ (hK_Spre rel hrel)
  have hK_Lpar : ∀ rel ∈ discover_files fs₀ pd, ∀ i,
      i < (td ++ rel).length - 1 →
      notSymNode (((createAll fs₀ ((discover_files fs₀ pd).map
        (fun rel => (⟨td ++ rel, pd ++ rel⟩ : Symlink)))
        (decide (mode = ConflictMode.force))).1).lookup
        ((td ++ rel).take (i + 1))) = true := by
    intro rel hrel i hi
    rcases hcaFrame ((td ++ rel).take (i + 1)) (hExcl3 rel hrel i hi) with
      h | ⟨-, h2, -⟩
    · rw [h]
      exact notSym_of_dirOrNone (hLpar0 rel hrel i hi)
    · rw [h2]
      rfl
  have hlres1L : ∀ rel ∈ discover_files fs₀ pd,
      ((createAll fs₀ ((discover_files fs₀ pd).map
        (fun rel => (⟨td ++ rel, pd ++ rel⟩ : Symlink)))
        (decide (mode = ConflictMode.force))).1).lresolve (td ++ rel) =
        td ++ rel :=
    fun rel hrel => lresolve_stable _ _ (hLne rel hrel) (hK_Lpar rel hrel)
  have hsym1 : ∀ rel ∈ discover_files fs₀ pd,
      ((createAll fs₀ ((discover_files fs₀ pd).map
        (fun rel => (⟨td ++ rel, pd ++ rel⟩ : Symlink)))
        (decide (mode = ConflictMode.force))).1).lookup (td ++ rel) =
      some (.symlink
        (⟨td ++ rel, pd ++ rel⟩ : Symlink).relative_source_path) := by
    intro rel hrel
    exact hcaLinks _ (List.mem_map.mpr ⟨rel, hrel, rfl⟩)
  have hresFrom : ∀ rel ∈ discover_files fs₀ pd,
      ((createAll fs₀ ((discover_files fs₀ pd).map
        (fun rel => (⟨td ++ rel, pd ++ rel⟩ : Symlink)))
        (decide (mode = ConflictMode.force))).1).resolveFrom
        (td ++ rel).dropLast
        ((⟨td ++ rel, pd ++ rel⟩ : Symlink).relative_source_path) =
      pd ++ rel := by
    intro rel hrel
    have hshape : (⟨td ++ rel, pd ++ rel⟩ : Symlink).relative_source_path =
        ⟨false, (td ++ rel).dropLast.length -
          commonLen (pd ++ rel) (td ++ rel).dropLast,
          (pd ++ rel).drop (commonLen (pd ++ rel) (td ++ rel).dropLast)⟩ := rfl
    rw [hshape]
    exact resolveFrom_relative _ (td ++ rel) (pd ++ rel) (hLne rel hrel)
      (hK_Lpar rel hrel) (hK_Spre rel hrel)
  have hisSym1 : ∀ rel ∈ discover_files fs₀ pd,
      ((createAll fs₀ ((discover_files fs₀ pd).map
        (fun rel => (⟨td ++ rel, pd ++ rel⟩ : Symlink)))
        (decide (mode = ConflictMode.force))).1).isSymlinkAt (td ++ rel) =
        true := by
    intro rel hrel
    unfold FS.isSymlinkAt FS.lookupEntry
    rw [hlres1L rel hrel, hsym1 rel hrel]
  have hreadlink1 : ∀ rel ∈ discover_files fs₀ pd,
      ((createAll fs₀ ((discover_files fs₀ pd).map
        (fun rel => (⟨td ++ rel, pd ++ rel⟩ : Symlink)))
        (decide (mode = ConflictMode.force))).1).readlinkAt (td ++ rel) =
      (⟨td ++ rel, pd ++ rel⟩ : Symlink).relative_source_path := by
    intro rel hrel
    unfold FS.readlinkAt FS.lookupEntry
    rw [hlres1L rel hrel, hsym1 rel hrel]
  have hexists1 : ∀ rel ∈ discover_files fs₀ pd,
      Symlink.exists ⟨td ++ rel, pd ++ rel⟩
        ((createAll fs₀ ((discover_files fs₀ pd).map
          (fun rel => (⟨td ++ rel, pd ++ rel⟩ : Symlink)))
          (decide (mode = ConflictMode.force))).1) = true := by
    intro rel hrel
    simp [Symlink.exists, hisSym1 rel hrel, Symlink.points_to,
      hreadlink1 rel hrel, hresFrom rel hrel, hres1S rel hrel]
  have hcc1 : ∀ rel ∈ discover_files fs₀ pd,
      check_conflict ((createAll fs₀ ((discover_files fs₀ pd).map
        (fun rel => (⟨td ++ rel, pd ++ rel⟩ : Symlink)))
        (decide (mode = ConflictMode.force))).1) ⟨td ++ rel, pd ++ rel⟩ =
      some (.correctSymlink (td ++ rel)
        ((⟨td ++ rel, pd ++ rel⟩ : Symlink).relative_source_path)) := by
    intro rel hrel
    simp [check_conflict, hisSym1 rel hrel, hreadlink1 rel hrel,
      hexists1 rel hrel]
  have hF1 : discover_files ((createAll fs₀ ((discover_files fs₀ pd).map
      (fun rel => (⟨td ++ rel, pd ++ rel⟩ : Symlink)))
      (decide (mode = ConflictMode.force))).1) pd =
      discover_files fs₀ pd := by
    rw [hcaStruct]
    apply discover_extend
    · exact fun kn hkn => (hcaNew kn hkn).1
    · intro kn hkn
      cases hl : leads pd kn.1 with
      | false => rfl
      | true =>
        exfalso
        obtain ⟨-, s, hs, hlead⟩ := hcaNew kn hkn
        obtain ⟨rel, hrel, rfl⟩ := List.mem_map.mp hs
        have hpl : leads pd (td ++ rel) = true := leads_trans hl hlead
        have h2 := (hper rel hrel).2.1
        rw [hpl] at h2
        cases h2
    · exact hnosym0
  have hcomp2 : compute_install_plan ((createAll fs₀
      ((discover_files fs₀ pd).map
        (fun rel => (⟨td ++ rel, pd ++ rel⟩ : Symlink)))
      (decide (mode = ConflictMode.force))).1) pd td mode = .ok
      ⟨pd.getLastD "", pd, td, [],
        (discover_files fs₀ pd).map (fun rel =>
          Conflict.correctSymlink (td ++ rel)
            ((⟨td ++ rel, pd ++ rel⟩ : Symlink).relative_source_path))⟩ := by
    rw [compute_install_plan_build _ pd td mode hres1pd hres1td hex1 hdir1
      hpd0 hnlpd, hF1, planFiles_all_correct _ pd td mode
      (fun rel => (⟨td ++ rel, pd ++ rel⟩ : Symlink).relative_source_path)
      _ hcc1]
  have hval1 : validate_install reg₀
      ⟨pd.getLastD "", pd, td,
        (discover_files fs₀ pd).map
          (fun rel => (⟨td ++ rel, pd ++ rel⟩ : Symlink)), []⟩ mode =
      none := by
    unfold validate_install
    cases hfind : dfind reg₀.packages (pd.getLastD "") with
    | none => simp [hfind]
    | some entry =>
      have heq := hname entry hfind
      simp [hfind, heq]
  have hexec1 : execute_install_plan ⟨fs₀, regFile⟩
      ⟨pd.getLastD "", pd, td,
        (discover_files fs₀ pd).map
          (fun rel => (⟨td ++ rel, pd ++ rel⟩ : Symlink)), []⟩ mode now₁ =
      (⟨(createAll fs₀ ((discover_files fs₀ pd).map
          (fun rel => (⟨td ++ rel, pd ++ rel⟩ : Symlink)))
          (decide (mode = ConflictMode.force))).1,
        some (Registry.to_dict ⟨reg₀.version,
          dinsert reg₀.packages (pd.getLastD "")
            ⟨pd.getLastD "", pd, td,
              (discover_files fs₀ pd).map
                (fun rel => (⟨td ++ rel, pd ++ rel⟩ : Symlink)) ++ [],
              now₁⟩⟩)⟩, none) :=
    execute_install_plan_build ⟨fs₀, regFile⟩ _ mode now₁ reg₀ hload hval1
      hcaErr
  have hv0 : reg₀.version ≤ REGISTRY_VERSION :=
    Registry.load_version_le regFile reg₀ hload
  have hfm : ((discover_files fs₀ pd).map (fun rel =>
      Conflict.correctSymlink (td ++ rel)
        ((⟨td ++ rel, pd ++ rel⟩ : Symlink).relative_source_path))).filterMap
      (reconstructCorrect ((createAll fs₀ ((discover_files fs₀ pd).map
        (fun rel => (⟨td ++ rel, pd ++ rel⟩ : Symlink)))
        (decide (mode = ConflictMode.force))).1)) =
      (discover_files fs₀ pd).map
        (fun rel => (⟨td ++ rel, pd ++ rel⟩ : Symlink)) := by
    rw [List.filterMap_map]
    apply filterMap_eq_map_of_some
    intro rel hrel
    show reconstructCorrect _ (Conflict.correctSymlink (td ++ rel)
      ((⟨td ++ rel, pd ++ rel⟩ : Symlink).relative_source_path)) =
      some ⟨td ++ rel, pd ++ rel⟩
    simp only [reconstructCorrect]
    rw [hresFrom rel hrel]
  have hload2 : Registry.load (some (Registry.to_dict ⟨reg₀.version,
      dinsert reg₀.packages (pd.getLastD "")
        ⟨pd.getLastD "", pd, td,
          (discover_files fs₀ pd).map
            (fun rel => (⟨td ++ rel, pd ++ rel⟩ : Symlink)) ++ [],
          now₁⟩⟩)) = .ok ⟨reg₀.version,
      dinsert reg₀.packages (pd.getLastD "")
        ⟨pd.getLastD "", pd, td,
          (discover_files fs₀ pd).map
            (fun rel => (⟨td ++ rel, pd ++ rel⟩ : Symlink)) ++ [],
          now₁⟩⟩ :=
    Registry.load_to_dict _ hv0
  have hfdir : ((discover_files fs₀ pd).map (fun rel =>
      Conflict.correctSymlink (td ++ rel)
        ((⟨td ++ rel, pd ++ rel⟩ : Symlink).relative_source_path))).filter
      Conflict.isDirectory = [] := by
    rw [List.filter_eq_nil]
    intro c hc
    obtain ⟨rel, hrel, rfl⟩ := List.mem_map.mp hc
    simp [Conflict.isDirectory]
  have hfblock : ((discover_files fs₀ pd).map (fun rel =>
      Conflict.correctSymlink (td ++ rel)
        ((⟨td ++ rel, pd ++ rel⟩ : Symlink).relative_source_path))).filter
      (fun c => !c.isCorrectSymlink) = [] := by
    rw [List.filter_eq_nil]
    intro c hc
    obtain ⟨rel, hrel, rfl⟩ := List.mem_map.mp hc
    simp [Conflict.isCorrectSymlink]
  have hval2 : validate_install ⟨reg₀.version,
      dinsert reg₀.packages (pd.getLastD "")
        ⟨pd.getLastD "", pd, td,
          (discover_files fs₀ pd).map
            (fun rel => (⟨td ++ rel, pd ++ rel⟩ : Symlink)) ++ [],
          now₁⟩⟩
      ⟨pd.getLastD "", pd, td, [],
        (discover_files fs₀ pd).map (fun rel =>
          Conflict.correctSymlink (td ++ rel)
            ((⟨td ++ rel, pd ++ rel⟩ : Symlink).relative_source_path))⟩
      mode = none := by
    unfold validate_install
    simp [dfind_dinsert, hfdir, hfblock]
  have hexec2 : execute_install_plan
      ⟨(createAll fs₀ ((discover_files fs₀ pd).map
          (fun rel => (⟨td ++ rel, pd ++ rel⟩ : Symlink)))
          (decide (mode = ConflictMode.force))).1,
        some (Registry.to_dict ⟨reg₀.version,
          dinsert reg₀.packages (pd.getLastD "")
            ⟨pd.getLastD "", pd, td,
              (discover_files fs₀ pd).map
                (fun rel => (⟨td ++ rel, pd ++ rel⟩ : Symlink)) ++ [],
              now₁⟩⟩)⟩
      ⟨pd.getLastD "", pd, td, [],
        (discover_files fs₀ pd).map (fun rel =>
          Conflict.correctSymlink (td ++ rel)
            ((⟨td ++ rel, pd ++ rel⟩ : Symlink).relative_source_path))⟩
      mode now₂ =
      (⟨(createAll fs₀ ((discover_files fs₀ pd).map
          (fun rel => (⟨td ++ rel, pd ++ rel⟩ : Symlink)))
          (decide (mode = ConflictMode.force))).1,
        some (Registry.to_dict ⟨reg₀.version,
          dinsert (dinsert reg₀.packages (pd.getLastD "")
            ⟨pd.getLastD "", pd, td,
              (discover_files fs₀ pd).map
                (fun rel => (⟨td ++ rel, pd ++ rel⟩ : Symlink)) ++ [],
              now₁⟩) (pd.getLastD "")
            ⟨pd.getLastD "", pd, td,
              (discover_files fs₀ pd).map
                (fun rel => (⟨td ++ rel, pd ++ rel⟩ : Symlink)),
              now₂⟩⟩)⟩, none) := by
    have hbuild := execute_install_plan_build
      ⟨(createAll fs₀ ((discover_files fs₀ pd).map
          (fun rel => (⟨td ++ rel, pd ++ rel⟩ : Symlink)))
          (decide (mode = ConflictMode.force))).1,
        some (Registry.to_dict ⟨reg₀.version,
          dinsert reg₀.packages (pd.getLastD "")
            ⟨pd.getLastD "", pd, td,
              (discover_files fs₀ pd).map
                (fun rel => (⟨td ++ rel, pd ++ rel⟩ : Symlink)) ++ [],
              now₁⟩⟩)⟩
      ⟨pd.getLastD "", pd, td, [],
        (discover_files fs₀ pd).map (fun rel =>
          Conflict.correctSymlink (td ++ rel)
            ((⟨td ++ rel, pd ++ rel⟩ : Symlink).relative_source_path))⟩
      mode now₂ _ hload2 hval2 rfl
    refine hbuild.trans ?_
    show ((⟨(createAll fs₀ ((discover_files fs₀ pd).map
        (fun rel => (⟨td ++ rel, pd ++ rel⟩ : Symlink)))
        (decide (mode = ConflictMode.force))).1,
      some (Registry.to_dict ⟨reg₀.version,
        dinsert (dinsert reg₀.packages (pd.getLastD "")
          ⟨pd.getLastD "", pd, td,
            (discover_files fs₀ pd).map
              (fun rel => (⟨td ++ rel, pd ++ rel⟩ : Symlink)) ++ [],
            now₁⟩) (pd.getLastD "")
          ⟨pd.getLastD "", pd, td,
            ((discover_files fs₀ pd).map (fun rel =>
              Conflict.correctSymlink (td ++ rel)
                ((⟨td ++ rel, pd ++ rel⟩ : Symlink).relative_source_path))).filterMap
              (reconstructCorrect ((createAll fs₀
                ((discover_files fs₀ pd).map
                  (fun rel => (⟨td ++ rel, pd ++ rel⟩ : Symlink)))
                (decide (mode = ConflictMode.force))).1)),
            now₂⟩⟩)⟩ : World),
      (none : Option Err)) = _
    rw [hfm]
  refine ⟨_, _, _, _, hcomp1, hexec1, hcomp2, hexec2, rfl, ?_⟩
  show scrubFile (some (Registry.to_dict ⟨reg₀.version,
      dinsert (dinsert reg₀.packages (pd.getLastD "")
        ⟨pd.getLastD "", pd, td,
          (discover_files fs₀ pd).map
            (fun rel => (⟨td ++ rel, pd ++ rel⟩ : Symlink)) ++ [],
          now₁⟩) (pd.getLastD "")
        ⟨pd.getLastD "", pd, td,
          (discover_files fs₀ pd).map
            (fun rel => (⟨td ++ rel, pd ++ rel⟩ : Symlink)),
          now₂⟩⟩)) =
    scrubFile (some (Registry.to_dict ⟨reg₀.version,
      dinsert reg₀.packages (pd.getLastD "")
        ⟨pd.getLastD "", pd, td,
          (discover_files fs₀ pd).map
            (fun rel => (⟨td ++ rel, pd ++ rel⟩ : Symlink)) ++ [],
          now₁⟩⟩))
  rw [dinsert_dinsert]
  have hE : scrubEntryDict (PackageEntry.to_dict
      ⟨pd.getLastD "", pd, td,
        (discover_files fs₀ pd).map
          (fun rel => (⟨td ++ rel, pd ++ rel⟩ : Symlink)), now₂⟩) =
      scrubEntryDict (PackageEntry.to_dict
      ⟨pd.getLastD "", pd, td,
        (discover_files fs₀ pd).map
          (fun rel => (⟨td ++ rel, pd ++ rel⟩ : Symlink)) ++ [],
        now₁⟩) := by
    simp [scrubEntryDict, PackageEntry.to_dict]
  simp only [scrubFile, Registry.to_dict, Option.map_some']
  rw [map2_dinsert_eq_of_eq PackageEntry.to_dict scrubEntryDict _ _ hE
    reg₀.packages (pd.getLastD "")]

/-- Witness for the amended C5 theorem: its sanity hypotheses hold at the
concrete world `fsW5` and the double-install succeeds there. -/
theorem install_idempotent_witness :
    installSane fsW5 ["pkg", "dots"] ["home", "u"] = true ∧
    ∃ plan₁ w₁ plan₂ w₂,
      compute_install_plan fsW5 ["pkg", "dots"] ["home", "u"] .abort =
        .ok plan₁ ∧
      execute_install_plan ⟨fsW5, none⟩ plan₁ .abort "T1" = (w₁, none) ∧
      compute_install_plan w₁.fs ["pkg", "dots"] ["home", "u"] .abort =
        .ok plan₂ ∧
      execute_install_plan w₁ plan₂ .abort "T2" = (w₂, none) ∧
      w₂.fs = w₁.fs ∧
      scrubFile w₂.registryFile = scrubFile w₁.registryFile :=
  ⟨by decide, install_idempotent fsW5 none ["pkg", "dots"] ["home", "u"]
    .abort "T1" "T2" ⟨1, []⟩ rfl (fun entry h => nomatch h) (by decide)⟩

end Haunt
